import Mathlib

/-!
Verification of the command relay and chunked-execution protocol of the
claude-talk-to-figma-mcp Figma plugin.

The plugin source (`code.js`) is shallowly embedded below.  Conventions:

* JS numbers that are used as counters, sizes and percentages are `Nat`;
  the only arithmetic on them is addition, multiplication and integer
  division with explicit rounding, so no overflow modelling is needed.
* `figma.ui.postMessage` of a progress update and `await delay(ms)` are
  recorded in an explicit event trace (`Ev`), in emission order.  Items
  inside one chunk of `setMultipleTextContents` run under `Promise.all`;
  their (progress-free) delay events are recorded in item order, a
  linearization that is faithful for every counting and ordering
  property stated here because no progress event is emitted inside a
  chunk.
* Calls into the Figma API are modelled as explicit parameters: node
  lookup becomes an association list, and the outcome of
  `figma.loadFontAsync` + `setCharacters` becomes an oracle function.
* Fallible functions return `Except String`; a thrown `Error(msg)`
  becomes `Except.error msg`.
* The `message`, `timestamp` and `payload` fields of a progress update
  are carried by the real code but are not referred to by any claim;
  the embedding omits them (they are built from the same counters that
  are retained).
-/

namespace Figma

/-- Progress update record as built by `sendProgressUpdate` in `code.js`
(retaining the fields the claims speak about). -/
structure ProgressUpdate where
  commandId : String
  commandType : String
  status : String
  progress : Nat
  totalItems : Nat
  processedItems : Nat
deriving DecidableEq

/-- Mirror of the `sendProgressUpdate` helper: builds the update record that
is posted to the UI. -/
def sendProgressUpdate (commandId commandType status : String)
    (progress totalItems processedItems : Nat) : ProgressUpdate :=
  { commandId := commandId, commandType := commandType, status := status,
    progress := progress, totalItems := totalItems, processedItems := processedItems }

/-- Observable events of one handler execution: a posted progress update or
an awaited `delay(ms)`. -/
inductive Ev where
  | progress (u : ProgressUpdate)
  | delayEv (ms : Nat)
deriving DecidableEq

/-- Progress updates of a trace, in emission order. -/
def progressOf (t : List Ev) : List ProgressUpdate :=
  t.filterMap fun e => match e with
    | .progress u => some u
    | .delayEv _ => none

/-- Progress percentages of a trace, in emission order. -/
def progressValues (t : List Ev) : List Nat :=
  (progressOf t).map (·.progress)

/-- Number of `delay(ms)` events in a trace. -/
def countDelay (t : List Ev) (ms : Nat) : Nat :=
  t.countP fun e => e = Ev.delayEv ms

/-- Value of the JS expression `Math.round(5 + (j / K) * 90)` for natural
`j` and `K`: on the exact rational `(5*K + 90*j) / K` the JS rounding
(round half away from zero, here half up since everything is nonnegative)
is `floor(x + 1/2) = (11*K + 180*j) / (2*K)` in integer division. -/
def chunkProgress (K j : Nat) : Nat := (11 * K + 180 * j) / (2 * K)

/-- Value of the JS expression `Math.ceil(n / c)` for natural `n` and
positive `c`. -/
def divCeil (n c : Nat) : Nat := (n + c - 1) / c

/-- Fuel-indexed worker for `buildChunks`: the fuel only bounds the number
of chunks (it is instantiated with the list length, an upper bound for any
positive chunk size), so that the recursion is structural and computable
by the kernel. -/
def buildChunksF (C : Nat) : Nat → List α → List (List α)
  | 0, _ => []
  | fuel + 1, l =>
      if l.isEmpty || C == 0 then []
      else l.take C :: buildChunksF C fuel (l.drop C)

/-- Consecutive slices `l.slice(i, i + C)` for `i = 0, C, 2*C, ...`, exactly
as both chunked loops of `code.js` cut their item lists.  (For `C = 0` the
JS loops would not terminate; every claim below assumes a positive chunk
size, and this function returns `[]` in that vacuous case.) -/
def buildChunks (C : Nat) (l : List α) : List (List α) :=
  buildChunksF C l.length l

/-- Figma scene node, restricted to the properties the scanned handlers
read: `id`, `name`, `type`, `visible`, `characters` and `children`. -/
inductive FNode where
  | mk (id name ty : String) (visible : Bool) (characters : String)
       (children : List FNode)

def FNode.id : FNode → String
  | .mk i _ _ _ _ _ => i

def FNode.name : FNode → String
  | .mk _ n _ _ _ _ => n

def FNode.ty : FNode → String
  | .mk _ _ t _ _ _ => t

def FNode.visible : FNode → Bool
  | .mk _ _ _ v _ _ => v

def FNode.characters : FNode → String
  | .mk _ _ _ _ c _ => c

def FNode.children : FNode → List FNode
  | .mk _ _ _ _ _ c => c

/-- JS `node.name || fallback`: the empty string is falsy. -/
def jsNameOr (name fallback : String) : String :=
  if name = "" then fallback else name

/-- Serializable representation of a text node as built by `findTextNodes`
and `processTextNode` (font and geometry fields, read from Figma API
properties that are constants of the node, are omitted like `message`
above). -/
structure SafeTextNode where
  id : String
  name : String
  ty : String
  characters : String
  path : String
  depth : Nat
deriving DecidableEq

/-- Entry of the `nodesToProcess` list built by `collectNodesToProcess`. -/
structure NodeToProcess where
  node : FNode
  parentPath : List String
  depth : Nat

mutual

/-- Mirror of `findTextNodes` (`code.js`): pre-order traversal that skips
invisible subtrees and collects a `SafeTextNode` for every `TEXT` node.
The JS accumulator-push style is rendered as the list of pushed items. -/
def findTextNodes : FNode → List String → Nat → List SafeTextNode
  | .mk i nm t v ch children, parentPath, depth =>
    if v = false then []
    else
      let nodePath := parentPath ++ [jsNameOr nm ("Unnamed " ++ t)]
      let self :=
        if t = "TEXT" then
          [{ id := i, name := jsNameOr nm "Text", ty := t,
             characters := ch,
             path := String.intercalate " > " nodePath, depth := depth }]
        else []
      self ++ findTextNodesL children nodePath (depth + 1)

def findTextNodesL (nodes : List FNode) (parentPath : List String) (depth : Nat) :
    List SafeTextNode :=
  match nodes with
  | [] => []
  | n :: ns => findTextNodes n parentPath depth ++ findTextNodesL ns parentPath depth

end

mutual

/-- Mirror of `collectNodesToProcess` (`code.js`): pre-order traversal that
skips invisible subtrees and records every visited node with its path and
depth. -/
def collectNodesToProcess : FNode → List String → Nat → List NodeToProcess
  | .mk i nm t v ch children, parentPath, depth =>
    if v = false then []
    else
      let nodePath := parentPath ++ [jsNameOr nm ("Unnamed " ++ t)]
      { node := FNode.mk i nm t v ch children, parentPath := nodePath, depth := depth } ::
        collectNodesToProcessL children nodePath (depth + 1)

def collectNodesToProcessL (nodes : List FNode) (parentPath : List String) (depth : Nat) :
    List NodeToProcess :=
  match nodes with
  | [] => []
  | n :: ns =>
      collectNodesToProcess n parentPath depth ++
        collectNodesToProcessL ns parentPath depth

end

/-- Mirror of `processTextNode` (`code.js`), value part: `null` for
non-`TEXT` nodes, otherwise the safe representation (the transient
highlight is visual feedback whose `delay(100)` is recorded by the caller's
trace). -/
def processTextNode (node : FNode) (parentPath : List String) (depth : Nat) :
    Option SafeTextNode :=
  if node.ty ≠ "TEXT" then none
  else
    some { id := node.id, name := jsNameOr node.name "Text", ty := node.ty,
           characters := node.characters,
           path := String.intercalate " > " parentPath, depth := depth }

mutual

/-- Tree with every node whose `visible` property is `false` removed
together with its entire subtree (`none` when the root itself is
invisible).  Specification-side device used to state claim C9. -/
def pruneInvisible : FNode → Option FNode
  | .mk i nm t v ch children =>
      if v = false then none
      else some (.mk i nm t v ch (pruneInvisibleL children))

def pruneInvisibleL : List FNode → List FNode
  | [] => []
  | n :: ns =>
      (match pruneInvisible n with
       | none => []
       | some m => [m]) ++ pruneInvisibleL ns

end

/-- Observable data of a `nodesToProcess` entry: everything `processTextNode`
and the chunked scan read from it (the recursive `children` field is only
used by the collection phase itself). -/
structure NodeKey where
  id : String
  name : String
  ty : String
  visible : Bool
  characters : String
  parentPath : List String
  depth : Nat
deriving DecidableEq

def NodeToProcess.key (i : NodeToProcess) : NodeKey :=
  { id := i.node.id, name := i.node.name, ty := i.node.ty,
    visible := i.node.visible, characters := i.node.characters,
    parentPath := i.parentPath, depth := i.depth }

/-- Result record of the non-chunked branch of `scanTextNodes`. -/
structure ScanNoChunkResult where
  success : Bool
  count : Nat
  textNodes : List SafeTextNode
  commandId : String
deriving DecidableEq

/-- Result record of the chunked branch of `scanTextNodes` (the JS field
`totalNodes` of the result holds `allTextNodes.length`, not the number of
collected nodes). -/
structure ScanChunkedResult where
  success : Bool
  totalNodes : Nat
  processedNodes : Nat
  chunks : Nat
  textNodes : List SafeTextNode
  commandId : String
deriving DecidableEq

/-- Outcome of `scanTextNodes`, one shape per branch. -/
inductive ScanOutcome where
  | noChunk (r : ScanNoChunkResult)
  | chunked (r : ScanChunkedResult)
deriving DecidableEq

/-- Body of the `for (let i = 0; i < totalNodes; i += chunkSize)` loop of the
chunked `scanTextNodes`, over the precomputed slices.  State: `j` is
`chunksProcessed`, `processed` is `processedNodes`, `acc` is `allTextNodes`.
Returns the emitted trace, the final `processedNodes` and the final
`allTextNodes`. -/
def scanChunkLoop (cid : String) (totalNodes totalChunks : Nat) :
    List (List NodeToProcess) → Nat → Nat → List SafeTextNode →
    List Ev × Nat × List SafeTextNode
  | [], _, processed, acc => ([], processed, acc)
  | chunk :: rest, j, processed, acc =>
    let beforeEv := Ev.progress (sendProgressUpdate cid "scan_text_nodes" "in_progress"
      (chunkProgress totalChunks j) totalNodes processed)
    let chunkTextNodes := chunk.filterMap fun ni =>
      if ni.node.ty = "TEXT" then processTextNode ni.node ni.parentPath ni.depth else none
    let itemEvs := chunk.flatMap fun ni =>
      (if ni.node.ty = "TEXT" then [Ev.delayEv 100] else []) ++ [Ev.delayEv 5]
    let processed2 := processed + chunk.length
    let afterEv := Ev.progress (sendProgressUpdate cid "scan_text_nodes" "in_progress"
      (chunkProgress totalChunks (j + 1)) totalNodes processed2)
    let interEvs := if rest.isEmpty then [] else [Ev.delayEv 50]
    let r := scanChunkLoop cid totalNodes totalChunks rest (j + 1) processed2
      (acc ++ chunkTextNodes)
    (beforeEv :: itemEvs ++ afterEv :: interEvs ++ r.1, r.2)

/-- Chunked branch of `scanTextNodes` for an existing root node. -/
def scanTextNodesChunked (cid : String) (root : FNode) (chunkSize : Nat) :
    List Ev × ScanChunkedResult :=
  let nodesToProcess := collectNodesToProcess root [] 0
  let totalNodes := nodesToProcess.length
  let totalChunks := divCeil totalNodes chunkSize
  let startedEv := Ev.progress (sendProgressUpdate cid "scan_text_nodes" "started" 0 0 0)
  let planEv := Ev.progress (sendProgressUpdate cid "scan_text_nodes" "in_progress"
    5 totalNodes 0)
  let r := scanChunkLoop cid totalNodes totalChunks (buildChunks chunkSize nodesToProcess) 0 0 []
  let completedEv := Ev.progress (sendProgressUpdate cid "scan_text_nodes" "completed"
    100 totalNodes r.2.1)
  (startedEv :: planEv :: r.1 ++ [completedEv],
   { success := true, totalNodes := r.2.2.length, processedNodes := r.2.1,
     chunks := totalChunks, textNodes := r.2.2, commandId := cid })

/-- Non-chunked branch of `scanTextNodes` for an existing root node (the
traversal itself cannot throw in the model, so the `catch` branch is
unreachable). -/
def scanTextNodesNoChunk (cid : String) (root : FNode) :
    List Ev × ScanNoChunkResult :=
  let textNodes := findTextNodes root [] 0
  let startedEv := Ev.progress (sendProgressUpdate cid "scan_text_nodes" "started" 0 1 0)
  let completedEv := Ev.progress (sendProgressUpdate cid "scan_text_nodes" "completed"
    100 textNodes.length textNodes.length)
  ([startedEv, completedEv],
   { success := true, count := textNodes.length, textNodes := textNodes, commandId := cid })

/-- Mirror of `scanTextNodes` (`code.js`).  The result of
`figma.getNodeByIdAsync(nodeId)` is the explicit parameter `node?`. -/
def scanTextNodes (node? : Option FNode) (useChunking : Bool) (chunkSize : Nat)
    (cid : String) : List Ev × Except String ScanOutcome :=
  match node? with
  | none =>
      ([Ev.progress (sendProgressUpdate cid "scan_text_nodes" "error" 0 0 0)],
       Except.error "Node not found")
  | some root =>
      if useChunking = false then
        let r := scanTextNodesNoChunk cid root
        (r.1, Except.ok (ScanOutcome.noChunk r.2))
      else
        let r := scanTextNodesChunked cid root chunkSize
        (r.1, Except.ok (ScanOutcome.chunked r.2))

/-- JS truthiness test for an optional string: `undefined` and `""` are
falsy. -/
def jsFalsy : Option String → Bool
  | none => true
  | some s => s = ""

/-- JS `s || fallback` on an optional string. -/
def jsOr (s : Option String) (fallback : String) : String :=
  match s with
  | none => fallback
  | some s => if s = "" then fallback else s

/-- One entry of the `text` array parameter of `setMultipleTextContents`
(`none` renders a missing/`undefined` JS field). -/
structure Replacement where
  nodeId : Option String
  text : Option String
deriving DecidableEq

/-- Per-item outcome record pushed into `results` by
`setMultipleTextContents`. -/
structure ItemResult where
  success : Bool
  nodeId : String
  originalText : Option String
  translatedText : Option String
  error : Option String
deriving DecidableEq

/-- Figma-API boundary for the text-replacement handlers: the document as
an id-indexed node table (`figma.getNodeByIdAsync`), and the outcome of
`figma.loadFontAsync(node.fontName)` followed by `setCharacters` for a
given node id and replacement text (these two calls are the only fallible
steps of `setTextContent` after its own checks). -/
structure TextEnv where
  doc : List (String × FNode)
  applyText : String → String → Except String Unit

/-- Mirror of `figma.getNodeByIdAsync` over the document table. -/
def getNodeById (doc : List (String × FNode)) (nodeId : String) : Option FNode :=
  (doc.find? fun q => decide (q.1 = nodeId)).map (·.2)

/-- Result of a successful `setTextContent` (`fontName` omitted like the
other font fields). -/
structure SetTextResult where
  id : String
  name : String
  characters : String
deriving DecidableEq

/-- Mirror of `setTextContent` (`code.js`). -/
def setTextContent (env : TextEnv) (nodeId? : Option String) (text? : Option String) :
    Except String SetTextResult :=
  if jsFalsy nodeId? then Except.error "Missing nodeId parameter"
  else
    match text? with
    | none => Except.error "Missing text parameter"
    | some text =>
      let nodeId := nodeId?.getD ""
      match getNodeById env.doc nodeId with
      | none => Except.error ("Node not found with ID: " ++ nodeId)
      | some node =>
        if node.ty ≠ "TEXT" then
          Except.error ("Node is not a text node: " ++ nodeId)
        else
          match env.applyText nodeId text with
          | Except.error e => Except.error ("Error setting text content: " ++ e)
          | Except.ok _ =>
              Except.ok { id := node.id, name := node.name, characters := text }

/-- Mirror of the per-item closure passed to `chunk.map` inside
`setMultipleTextContents`: field check, node lookup, type check, then
`setTextContent`; every thrown error is caught and recorded as a
`success := false` entry. -/
def applyReplacement (env : TextEnv) (r : Replacement) : ItemResult :=
  if jsFalsy r.nodeId || r.text.isNone then
    { success := false, nodeId := jsOr r.nodeId "unknown",
      originalText := none, translatedText := none,
      error := some "Missing nodeId or text in replacement entry" }
  else
    let nodeId := r.nodeId.getD ""
    let text := r.text.getD ""
    match getNodeById env.doc nodeId with
    | none =>
        { success := false, nodeId := nodeId, originalText := none,
          translatedText := none, error := some ("Node not found: " ++ nodeId) }
    | some textNode =>
        if textNode.ty ≠ "TEXT" then
          { success := false, nodeId := nodeId, originalText := none,
            translatedText := none,
            error := some ("Node is not a text node: " ++ nodeId ++
              " (type: " ++ textNode.ty ++ ")") }
        else
          match setTextContent env (some nodeId) (some text) with
          | Except.error e =>
              { success := false, nodeId := nodeId, originalText := none,
                translatedText := none,
                error := some ("Error applying replacement: " ++ e) }
          | Except.ok _ =>
              { success := true, nodeId := nodeId,
                originalText := some textNode.characters,
                translatedText := some text, error := none }

/-- Body of the `for (chunkIndex ...)` loop of `setMultipleTextContents`
over the precomputed chunks.  State: `j` is `chunkIndex`, `sc`/`fc` are
`successCount`/`failureCount`, `res` is `results`.  The `delay(500)`
highlight pause happens exactly on the per-item success path. -/
def smtcChunkLoop (env : TextEnv) (cid : String) (total totalChunks : Nat) :
    List (List Replacement) → Nat → Nat → Nat → List ItemResult →
    List Ev × Nat × Nat × List ItemResult
  | [], _, sc, fc, res => ([], sc, fc, res)
  | chunk :: rest, j, sc, fc, res =>
    let beforeEv := Ev.progress (sendProgressUpdate cid "set_multiple_text_contents"
      "in_progress" (chunkProgress totalChunks j) total (sc + fc))
    let chunkResults := chunk.map (applyReplacement env)
    let itemEvs := chunk.flatMap fun r =>
      if (applyReplacement env r).success then [Ev.delayEv 500] else []
    let sc2 := sc + chunkResults.countP (·.success)
    let fc2 := fc + chunkResults.countP (fun x => !x.success)
    let afterEv := Ev.progress (sendProgressUpdate cid "set_multiple_text_contents"
      "in_progress" (chunkProgress totalChunks (j + 1)) total (sc2 + fc2))
    let interEvs := if rest.isEmpty then [] else [Ev.delayEv 1000]
    let r := smtcChunkLoop env cid total totalChunks rest (j + 1) sc2 fc2
      (res ++ chunkResults)
    (beforeEv :: itemEvs ++ afterEv :: interEvs ++ r.1, r.2)

/-- Aggregate result record of `setMultipleTextContents`. -/
structure SmtcResult where
  success : Bool
  nodeId : String
  replacementsApplied : Nat
  replacementsFailed : Nat
  totalReplacements : Nat
  results : List ItemResult
  completedInChunks : Nat
  commandId : String
deriving DecidableEq

/-- Mirror of `setMultipleTextContents` (`code.js`).  `text? = none` renders
a missing or non-array `text` parameter; the chunk size is the literal
`CHUNK_SIZE = 5` of the source. -/
def setMultipleTextContents (env : TextEnv) (nodeId? : Option String)
    (text? : Option (List Replacement)) (cid : String) :
    List Ev × Except String SmtcResult :=
  if jsFalsy nodeId? || text?.isNone then
    ([Ev.progress (sendProgressUpdate cid "set_multiple_text_contents" "error" 0 0 0)],
     Except.error "Missing required parameters: nodeId and text array")
  else
    let text := text?.getD []
    let nodeId := nodeId?.getD ""
    let startedEv := Ev.progress (sendProgressUpdate cid "set_multiple_text_contents"
      "started" 0 text.length 0)
    let chunks := buildChunks 5 text
    let planEv := Ev.progress (sendProgressUpdate cid "set_multiple_text_contents"
      "in_progress" 5 text.length 0)
    let r := smtcChunkLoop env cid text.length chunks.length chunks 0 0 0 []
    let completedEv := Ev.progress (sendProgressUpdate cid "set_multiple_text_contents"
      "completed" 100 text.length (r.2.1 + r.2.2.1))
    (startedEv :: planEv :: r.1 ++ [completedEv],
     Except.ok { success := decide (0 < r.2.1), nodeId := nodeId,
                 replacementsApplied := r.2.1, replacementsFailed := r.2.2.1,
                 totalReplacements := text.length, results := r.2.2.2,
                 completedInChunks := chunks.length, commandId := cid })

/-- Message posted to the plugin UI by the command-execution path: the
response envelope of the execute-command branch, or a progress update
posted from inside a handler via `sendProgressUpdate`. -/
inductive UIMessage (α : Type) where
  | commandResult (id : String) (result : α)
  | commandError (id : String) (error : String)
  | commandProgress (u : ProgressUpdate)
deriving DecidableEq

/-- A response envelope: a command-result or command-error message. -/
def UIMessage.isResponse : UIMessage α → Bool
  | .commandResult _ _ => true
  | .commandError _ _ => true
  | .commandProgress _ => false

/-- The correlation id carried by a response envelope. -/
def UIMessage.respId : UIMessage α → Option String
  | .commandResult i _ => some i
  | .commandError i _ => some i
  | .commandProgress _ => none

/-- Mirror of the execute-command case of `figma.ui.onmessage` (`code.js`):
`handleCommand` runs inside `try`, posting `handlerPosts` along the way and
finishing with `outcome`; the branch then posts exactly one envelope —
`command-result` with the returned value, or `command-error` with
`error.message || 'Error executing command'`. -/
def executeCommandBranch (id : String) (handlerPosts : List (UIMessage α))
    (outcome : Except String α) : List (UIMessage α) :=
  handlerPosts ++
    [match outcome with
     | Except.ok result => UIMessage.commandResult id result
     | Except.error e =>
         UIMessage.commandError id (if e = "" then "Error executing command" else e)]

/-- Modelled from the spec: the Channel Registry of the WebSocket relay
(the relay source, `src/socket.ts`, is not among the provided files; §3
and §4.1 of the spec define it).  A peer belongs to exactly one channel at
a time, so the registry is an association of peers to channel ids. -/
abbrev Registry (π : Type) := List (π × String)

/-- Modelled from the spec: the channel a peer currently belongs to. -/
def channelOf [DecidableEq π] (reg : Registry π) (p : π) : Option String :=
  (reg.find? fun q => decide (q.1 = p)).map (·.2)

/-- Modelled from the spec: `join(peer, channelId)` adds the peer to the
channel, creating it if absent, and fails only if the peer is already a
member of a different channel. -/
def joinChannel [DecidableEq π] (reg : Registry π) (p : π) (ch : String) :
    Except String (Registry π) :=
  match channelOf reg p with
  | some existing =>
      if existing = ch then Except.ok reg
      else Except.error "peer is already a member of a different channel"
  | none => Except.ok ((p, ch) :: reg)

/-- Modelled from the spec: `leave(peer)` removes the peer's membership. -/
def leaveChannel [DecidableEq π] (reg : Registry π) (p : π) : Registry π :=
  reg.filter fun q => decide (q.1 ≠ p)

/-- Modelled from the spec: `broadcast(senderPeer, frame)` delivers the
frame to every other peer of the sender's channel; the result is the
delivery list (recipient, frame). -/
def broadcast [DecidableEq π] (reg : Registry π) (sender : π) (frame : α) :
    List (π × α) :=
  match channelOf reg sender with
  | none => []
  | some ch =>
      (reg.filter fun q => decide (q.2 = ch) && decide (q.1 ≠ sender)).map
        fun q => (q.1, frame)

/-! ### Arithmetic of the chunk progress formula -/

theorem chunkProgress_mono (K : Nat) {j k : Nat} (h : j ≤ k) :
    chunkProgress K j ≤ chunkProgress K k := by
  unfold chunkProgress
  apply Nat.div_le_div_right
  have : 180 * j ≤ 180 * k := Nat.mul_le_mul_left _ h
  omega

theorem chunkProgress_zero (K : Nat) (hK : 0 < K) : chunkProgress K 0 = 5 := by
  unfold chunkProgress
  have h1 : 11 * K + 180 * 0 = K + 2 * K * 5 := by ring
  rw [h1, Nat.add_mul_div_left _ _ (by omega : 0 < 2 * K),
    Nat.div_eq_of_lt (by omega : K < 2 * K)]

theorem chunkProgress_self (K : Nat) (hK : 0 < K) : chunkProgress K K = 95 := by
  unfold chunkProgress
  have h1 : 11 * K + 180 * K = K + 2 * K * 95 := by ring
  rw [h1, Nat.add_mul_div_left _ _ (by omega : 0 < 2 * K),
    Nat.div_eq_of_lt (by omega : K < 2 * K)]

theorem chunkProgress_ge_5 (K j : Nat) (hK : 0 < K) : 5 ≤ chunkProgress K j := by
  have := chunkProgress_mono K (Nat.zero_le j)
  rw [chunkProgress_zero K hK] at this
  exact this

theorem chunkProgress_le_95 (K j : Nat) (hK : 0 < K) (hj : j ≤ K) :
    chunkProgress K j ≤ 95 := by
  have := chunkProgress_mono K hj
  rw [chunkProgress_self K hK] at this
  exact this

/-! ### Chunk slicing -/

theorem buildChunksF_congr (C : Nat) :
    ∀ (f1 : Nat) (l : List α) (f2 : Nat), l.length ≤ f1 → l.length ≤ f2 →
      buildChunksF C f1 l = buildChunksF C f2 l := by
  intro f1
  induction f1 with
  | zero =>
    intro l f2 h1 h2
    have hl : l = [] := List.eq_nil_of_length_eq_zero (by omega)
    subst hl
    cases f2 with
    | zero => rfl
    | succ f2 => simp [buildChunksF]
  | succ f1 ih =>
    intro l f2 h1 h2
    cases f2 with
    | zero =>
      have hl : l = [] := List.eq_nil_of_length_eq_zero (by omega)
      subst hl
      simp [buildChunksF]
    | succ f2 =>
      simp only [buildChunksF]
      by_cases hc : (l.isEmpty || C == 0) = true
      · rw [if_pos hc, if_pos hc]
      · rw [if_neg hc, if_neg hc]
        have hcc := hc
        simp only [Bool.or_eq_true, not_or, List.isEmpty_iff, beq_iff_eq] at hcc
        have hlpos : 0 < l.length := List.length_pos.mpr hcc.1
        have hCpos : 0 < C := by omega
        congr 1
        exact ih (l.drop C) f2 (by simp; omega) (by simp; omega)

theorem buildChunks_cons (C : Nat) (hC : 0 < C) (x : α) (xs : List α) :
    buildChunks C (x :: xs) =
      (x :: xs).take C :: buildChunks C ((x :: xs).drop C) := by
  show buildChunksF C (xs.length + 1) (x :: xs) = _
  rw [show buildChunksF C (xs.length + 1) (x :: xs) =
    if (x :: xs).isEmpty || C == 0 then []
    else (x :: xs).take C :: buildChunksF C xs.length ((x :: xs).drop C) from rfl]
  rw [if_neg (by simp; omega)]
  congr 1
  exact buildChunksF_congr C xs.length ((x :: xs).drop C) _ (by simp; omega)
    (le_refl _)

theorem buildChunks_flattenAux (C : Nat) (hC : 0 < C) :
    ∀ (n : Nat) (l : List α), l.length ≤ n → (buildChunks C l).flatten = l := by
  intro n
  induction n with
  | zero =>
    intro l hl
    have h0 : l = [] := List.eq_nil_of_length_eq_zero (by omega)
    subst h0
    rfl
  | succ n ih =>
    intro l hl
    cases l with
    | nil => rfl
    | cons x xs =>
      simp only [List.length_cons] at hl
      have hd : ((x :: xs).drop C).length ≤ n := by
        simp only [List.length_drop, List.length_cons]
        omega
      rw [buildChunks_cons C hC x xs, List.flatten_cons, ih ((x :: xs).drop C) hd,
        List.take_append_drop]

theorem buildChunks_flatten (C : Nat) (hC : 0 < C) (l : List α) :
    (buildChunks C l).flatten = l :=
  buildChunks_flattenAux C hC l.length l (le_refl _)

theorem buildChunks_lengthAux (C : Nat) (hC : 0 < C) :
    ∀ (n : Nat) (l : List α), l.length ≤ n →
      (buildChunks C l).length = divCeil l.length C := by
  intro n
  induction n with
  | zero =>
    intro l hl
    have h0 : l = [] := List.eq_nil_of_length_eq_zero (by omega)
    subst h0
    have h1 : (C - 1) / C = 0 := Nat.div_eq_of_lt (by omega)
    show (0 : Nat) = divCeil 0 C
    simp [divCeil, h1]
  | succ n ih =>
    intro l hl
    cases l with
    | nil =>
      have h1 : (C - 1) / C = 0 := Nat.div_eq_of_lt (by omega)
      show (0 : Nat) = divCeil 0 C
      simp [divCeil, h1]
    | cons x xs =>
      simp only [List.length_cons] at hl
      have hd : ((x :: xs).drop C).length ≤ n := by
        simp only [List.length_drop, List.length_cons]
        omega
      rw [buildChunks_cons C hC x xs]
      simp only [List.length_cons, ih ((x :: xs).drop C) hd, List.length_drop,
        List.length_cons]
      unfold divCeil
      rcases Nat.lt_or_ge (xs.length + 1) C with hlt | hge
      · have h1 : (xs.length + 1 - C + C - 1) / C = 0 :=
          Nat.div_eq_of_lt (by omega)
        have h3 : (xs.length + 1 + C - 1) / C = 1 := by
          apply Nat.div_eq_of_lt_le <;> omega
        omega
      · have h1 : xs.length + 1 - C + C - 1 = xs.length := by omega
        rw [h1]
        have h2 : xs.length + 1 + C - 1 = xs.length + 1 * C := by omega
        rw [h2, Nat.add_mul_div_right _ _ hC]

theorem buildChunks_length (C : Nat) (hC : 0 < C) (l : List α) :
    (buildChunks C l).length = divCeil l.length C :=
  buildChunks_lengthAux C hC l.length l (le_refl _)

theorem buildChunks_sum_lengths (C : Nat) (hC : 0 < C) (l : List α) :
    ((buildChunks C l).map List.length).sum = l.length := by
  rw [← List.length_flatten, buildChunks_flatten C hC]

theorem buildChunks_pos (C : Nat) (hC : 0 < C) (l : List α) (hl : 0 < l.length) :
    0 < (buildChunks C l).length := by
  rw [buildChunks_length C hC]
  unfold divCeil
  have h1 : 1 * C ≤ l.length + C - 1 := by omega
  have h2 := (Nat.le_div_iff_mul_le hC).mpr h1
  omega

/-! ### Closed form of the progress events emitted by a chunk loop

Both chunked handlers emit, per chunk group, one `in_progress` update
before the group (with the count of fully processed groups `j`) and one
after it (with `j + 1`), the processed-item counter growing by the group
size.  `chunkLoopEvents` is the specification-side closed form of that
event sequence, indexed by the list of group sizes. -/

def chunkLoopEvents (cid cty : String) (N K : Nat) :
    List Nat → Nat → Nat → List ProgressUpdate
  | [], _, _ => []
  | len :: rest, j, pr =>
      sendProgressUpdate cid cty "in_progress" (chunkProgress K j) N pr ::
      sendProgressUpdate cid cty "in_progress" (chunkProgress K (j + 1)) N (pr + len) ::
      chunkLoopEvents cid cty N K rest (j + 1) (pr + len)

theorem chunkLoopEvents_length (cid cty : String) (N K : Nat)
    (lens : List Nat) (j pr : Nat) :
    (chunkLoopEvents cid cty N K lens j pr).length = 2 * lens.length := by
  induction lens generalizing j pr with
  | nil => simp [chunkLoopEvents]
  | cons len rest ih =>
    simp only [chunkLoopEvents, List.length_cons, ih, List.length_cons]
    omega

theorem chunkLoopEvents_mem (cid cty : String) (N K : Nat)
    (lens : List Nat) (j pr : Nat) :
    ∀ u ∈ chunkLoopEvents cid cty N K lens j pr,
      u.status = "in_progress" ∧ u.commandId = cid ∧ u.commandType = cty ∧
      u.totalItems = N ∧
      ∃ jc, j ≤ jc ∧ jc ≤ j + lens.length ∧ u.progress = chunkProgress K jc := by
  induction lens generalizing j pr with
  | nil => intro u hu; simp [chunkLoopEvents] at hu
  | cons len rest ih =>
    intro u hu
    simp only [chunkLoopEvents, List.mem_cons] at hu
    rcases hu with hu | hu | hu
    · subst hu
      refine ⟨rfl, rfl, rfl, rfl, j, le_refl j, by simp, rfl⟩
    · subst hu
      refine ⟨rfl, rfl, rfl, rfl, j + 1, by omega, by simp, rfl⟩
    · obtain ⟨h1, h2, h3, h4, jc, hj1, hj2, hj3⟩ := ih (j + 1) (pr + len) u hu
      exact ⟨h1, h2, h3, h4, jc, by omega, by simp at hj2 ⊢; omega, hj3⟩

theorem chunkLoopEvents_getLast (cid cty : String) (N K : Nat)
    (lens : List Nat) (j pr : Nat) (h : lens ≠ []) :
    (chunkLoopEvents cid cty N K lens j pr).getLast? =
      some (sendProgressUpdate cid cty "in_progress"
        (chunkProgress K (j + lens.length)) N (pr + lens.sum)) := by
  induction lens generalizing j pr with
  | nil => exact absurd rfl h
  | cons len rest ih =>
    by_cases hr : rest = []
    · subst hr
      simp [chunkLoopEvents]
    · have hne : chunkLoopEvents cid cty N K rest (j + 1) (pr + len) ≠ [] := by
        cases rest with
        | nil => exact absurd rfl hr
        | cons a b => simp [chunkLoopEvents]
      have hsplit : chunkLoopEvents cid cty N K (len :: rest) j pr =
          [sendProgressUpdate cid cty "in_progress" (chunkProgress K j) N pr,
           sendProgressUpdate cid cty "in_progress" (chunkProgress K (j + 1)) N (pr + len)] ++
          chunkLoopEvents cid cty N K rest (j + 1) (pr + len) := by
        simp [chunkLoopEvents]
      rw [hsplit, List.getLast?_append_of_ne_nil _ hne, ih (j + 1) (pr + len) hr]
      have e1 : j + 1 + rest.length = j + (len :: rest).length := by
        simp only [List.length_cons]; omega
      have e2 : pr + len + rest.sum = pr + (len :: rest).sum := by
        simp only [List.sum_cons]; omega
      rw [e1, e2]

/-- Progress percentages produced by a run of `n` chunk groups starting
with `j` groups already processed. -/
def progList (K : Nat) : Nat → Nat → List Nat
  | _, 0 => []
  | j, n + 1 =>
      chunkProgress K j :: chunkProgress K (j + 1) :: progList K (j + 1) n

theorem chunkLoopEvents_map_progress (cid cty : String) (N K : Nat)
    (lens : List Nat) (j pr : Nat) :
    (chunkLoopEvents cid cty N K lens j pr).map (·.progress) =
      progList K j lens.length := by
  induction lens generalizing j pr with
  | nil => simp [chunkLoopEvents, progList]
  | cons len rest ih =>
    simp only [chunkLoopEvents, List.map_cons, List.length_cons, progList, ih,
      sendProgressUpdate]

theorem progList_chain (K j n : Nat) :
    List.Chain' (· ≤ ·) (progList K j n) := by
  induction n generalizing j with
  | zero => simp [progList]
  | succ n ih =>
    rw [progList, List.chain'_cons']
    constructor
    · intro y hy
      simp only [List.head?_cons, Option.mem_def, Option.some.injEq] at hy
      subst hy
      exact chunkProgress_mono K (by omega)
    · rw [List.chain'_cons']
      refine ⟨?_, ih (j + 1)⟩
      intro y hy
      cases n with
      | zero => simp [progList] at hy
      | succ m =>
        simp only [progList, List.head?_cons, Option.mem_def, Option.some.injEq] at hy
        subst hy
        exact le_refl _

theorem progList_head (K j n : Nat) (h : 0 < n) :
    (progList K j n).head? = some (chunkProgress K j) := by
  cases n with
  | zero => omega
  | succ m => simp [progList]

theorem progList_getLast (K j n : Nat) (h : 0 < n) :
    (progList K j n).getLast? = some (chunkProgress K (j + n)) := by
  induction n generalizing j with
  | zero => omega
  | succ m ih =>
    cases m with
    | zero => simp [progList]
    | succ m2 =>
      have hsplit : progList K j (m2 + 1 + 1) =
          [chunkProgress K j, chunkProgress K (j + 1)] ++ progList K (j + 1) (m2 + 1) := by
        rw [progList]
        simp
      have hne : progList K (j + 1) (m2 + 1) ≠ [] := by simp [progList]
      rw [hsplit, List.getLast?_append_of_ne_nil _ hne, ih (j + 1) (by omega)]
      have e1 : j + 1 + (m2 + 1) = j + (m2 + 1 + 1) := by omega
      rw [e1]

/-- Full percentage sequence of a chunked run: `started` at 0, planning at
5, the loop percentages, and `completed` at 100 — always non-decreasing. -/
theorem fullChain (K : Nat) :
    List.Chain' (· ≤ ·) ((0 : Nat) :: 5 :: progList K 0 K ++ [100]) := by
  rcases Nat.eq_zero_or_pos K with hK | hK
  · subst hK
    simp [progList]
  · rw [show (0 : Nat) :: 5 :: progList K 0 K ++ [100] =
      ((0 : Nat) :: 5 :: progList K 0 K) ++ [100] from by simp]
    rw [List.chain'_append]
    refine ⟨?_, List.chain'_singleton _, ?_⟩
    · rw [List.chain'_cons']
      refine ⟨by intro y hy; simp at hy; omega, ?_⟩
      rw [List.chain'_cons']
      refine ⟨?_, progList_chain K 0 K⟩
      intro y hy
      rw [progList_head K 0 K hK] at hy
      simp only [Option.mem_def, Option.some.injEq] at hy
      subst hy
      rw [chunkProgress_zero K hK]
    · intro x hx y hy
      simp only [List.head?_cons, Option.mem_def, Option.some.injEq] at hy
      subst hy
      have hne : progList K 0 K ≠ [] := by
        cases K with
        | zero => omega
        | succ m => simp [progList]
      rw [show ((0 : Nat) :: 5 :: progList K 0 K) = [(0 : Nat), 5] ++ progList K 0 K
        from by simp, List.getLast?_append_of_ne_nil _ hne,
        progList_getLast K 0 K hK] at hx
      simp only [Option.mem_def, Option.some.injEq] at hx
      subst hx
      have := chunkProgress_le_95 K (0 + K) hK (by omega)
      omega

/-! ### Trace projections -/

@[simp] theorem progressOf_nil : progressOf [] = [] := rfl

@[simp] theorem progressOf_cons_progress (u : ProgressUpdate) (t : List Ev) :
    progressOf (Ev.progress u :: t) = u :: progressOf t := rfl

@[simp] theorem progressOf_cons_delay (ms : Nat) (t : List Ev) :
    progressOf (Ev.delayEv ms :: t) = progressOf t := rfl

@[simp] theorem progressOf_append (a b : List Ev) :
    progressOf (a ++ b) = progressOf a ++ progressOf b := by
  simp [progressOf]

theorem progressOf_interEvs (c : Bool) (m : Nat) :
    progressOf (if c then [] else [Ev.delayEv m]) = [] := by
  split <;> rfl

theorem progressOf_scanItemEvs (chunk : List NodeToProcess) :
    progressOf (chunk.flatMap fun ni =>
      (if ni.node.ty = "TEXT" then [Ev.delayEv 100] else []) ++ [Ev.delayEv 5]) = [] := by
  rw [progressOf, List.filterMap_eq_nil_iff]
  intro e he
  simp only [List.mem_flatMap, List.mem_append] at he
  obtain ⟨ni, _, he⟩ := he
  rcases he with he | he
  · by_cases h : ni.node.ty = "TEXT"
    · simp only [h, if_true, List.mem_singleton] at he
      subst he; rfl
    · simp [h] at he
  · simp only [List.mem_singleton] at he
    subst he; rfl

theorem progressOf_smtcItemEvs (env : TextEnv) (chunk : List Replacement) :
    progressOf (chunk.flatMap fun r =>
      if (applyReplacement env r).success then [Ev.delayEv 500] else []) = [] := by
  rw [progressOf, List.filterMap_eq_nil_iff]
  intro e he
  simp only [List.mem_flatMap] at he
  obtain ⟨r, _, he⟩ := he
  by_cases h : (applyReplacement env r).success
  · simp only [h, if_true, List.mem_singleton] at he
    subst he; rfl
  · simp [h] at he

@[simp] theorem countDelay_nil (ms : Nat) : countDelay [] ms = 0 := rfl

@[simp] theorem countDelay_append (a b : List Ev) (ms : Nat) :
    countDelay (a ++ b) ms = countDelay a ms + countDelay b ms := by
  simp [countDelay, List.countP_append]

@[simp] theorem countDelay_cons_progress (u : ProgressUpdate) (t : List Ev) (ms : Nat) :
    countDelay (Ev.progress u :: t) ms = countDelay t ms := by
  simp [countDelay, List.countP_cons]

@[simp] theorem countDelay_cons_delay (m : Nat) (t : List Ev) (ms : Nat) :
    countDelay (Ev.delayEv m :: t) ms = countDelay t ms + (if m = ms then 1 else 0) := by
  by_cases h : m = ms <;> simp [countDelay, List.countP_cons, h]

theorem countDelay_scanItemEvs (chunk : List NodeToProcess) :
    countDelay (chunk.flatMap fun ni =>
      (if ni.node.ty = "TEXT" then [Ev.delayEv 100] else []) ++ [Ev.delayEv 5]) 50 = 0 := by
  rw [countDelay, List.countP_eq_zero]
  intro e he
  simp only [List.mem_flatMap, List.mem_append] at he
  obtain ⟨ni, _, he⟩ := he
  rcases he with he | he
  · by_cases h : ni.node.ty = "TEXT"
    · simp only [h, if_true, List.mem_singleton] at he
      subst he; simp
    · simp [h] at he
  · simp only [List.mem_singleton] at he
    subst he; simp

theorem countDelay_smtcItemEvs (env : TextEnv) (chunk : List Replacement) :
    countDelay (chunk.flatMap fun r =>
      if (applyReplacement env r).success then [Ev.delayEv 500] else []) 1000 = 0 := by
  rw [countDelay, List.countP_eq_zero]
  intro e he
  simp only [List.mem_flatMap] at he
  obtain ⟨r, _, he⟩ := he
  by_cases h : (applyReplacement env r).success
  · simp only [h, if_true, List.mem_singleton] at he
    subst he; simp
  · simp [h] at he

/-! ### The scan chunk loop -/

theorem scanChunkLoop_events (cid : String) (N K : Nat)
    (chunks : List (List NodeToProcess)) (j pr : Nat) (acc : List SafeTextNode) :
    progressOf (scanChunkLoop cid N K chunks j pr acc).1 =
      chunkLoopEvents cid "scan_text_nodes" N K (chunks.map List.length) j pr := by
  induction chunks generalizing j pr acc with
  | nil => rfl
  | cons chunk rest ih =>
    simp only [scanChunkLoop, List.map_cons, chunkLoopEvents, progressOf_cons_progress,
      progressOf_append, progressOf_scanItemEvs, List.nil_append, progressOf_interEvs, ih]
    simp

theorem scanChunkLoop_processed (cid : String) (N K : Nat)
    (chunks : List (List NodeToProcess)) (j pr : Nat) (acc : List SafeTextNode) :
    (scanChunkLoop cid N K chunks j pr acc).2.1 = pr + (chunks.map List.length).sum := by
  induction chunks generalizing j pr acc with
  | nil => simp [scanChunkLoop]
  | cons chunk rest ih =>
    simp only [scanChunkLoop, ih, List.map_cons, List.sum_cons]
    omega

theorem scanChunkLoop_textNodes (cid : String) (N K : Nat)
    (chunks : List (List NodeToProcess)) (j pr : Nat) (acc : List SafeTextNode) :
    (scanChunkLoop cid N K chunks j pr acc).2.2 = acc ++ chunks.flatMap fun chunk =>
      chunk.filterMap fun ni =>
        if ni.node.ty = "TEXT" then processTextNode ni.node ni.parentPath ni.depth
        else none := by
  induction chunks generalizing j pr acc with
  | nil => simp [scanChunkLoop]
  | cons chunk rest ih =>
    simp only [scanChunkLoop, ih, List.flatMap_cons, List.append_assoc]

theorem countDelay_interEvs (c : Bool) (m ms : Nat) :
    countDelay (if c then [] else [Ev.delayEv m]) ms =
      if c then 0 else if m = ms then 1 else 0 := by
  split <;> simp

theorem scanChunkLoop_countDelay50 (cid : String) (N K : Nat)
    (chunks : List (List NodeToProcess)) (j pr : Nat) (acc : List SafeTextNode) :
    countDelay (scanChunkLoop cid N K chunks j pr acc).1 50 = chunks.length - 1 := by
  induction chunks generalizing j pr acc with
  | nil => simp [scanChunkLoop]
  | cons chunk rest ih =>
    simp only [scanChunkLoop, countDelay_cons_progress, countDelay_append,
      countDelay_scanItemEvs, countDelay_interEvs, ih]
    rcases rest with _ | ⟨r2, rest2⟩
    · simp
    · simp
      omega

theorem scanChunkLoop_lastEvent (cid : String) (N K : Nat)
    (chunks : List (List NodeToProcess)) (j pr : Nat) (acc : List SafeTextNode)
    (h : chunks ≠ []) :
    ∃ pre, (scanChunkLoop cid N K chunks j pr acc).1 =
      pre ++ [Ev.progress (sendProgressUpdate cid "scan_text_nodes" "in_progress"
        (chunkProgress K (j + chunks.length)) N
        (pr + (chunks.map List.length).sum))] := by
  induction chunks generalizing j pr acc with
  | nil => exact absurd rfl h
  | cons chunk rest ih =>
    by_cases hrest : rest = []
    · subst hrest
      refine ⟨Ev.progress (sendProgressUpdate cid "scan_text_nodes" "in_progress"
        (chunkProgress K j) N pr) ::
        (chunk.flatMap fun ni =>
          (if ni.node.ty = "TEXT" then [Ev.delayEv 100] else []) ++ [Ev.delayEv 5]), ?_⟩
      simp [scanChunkLoop]
    · obtain ⟨pre, hpre⟩ := ih (j + 1) (pr + chunk.length)
        (acc ++ chunk.filterMap fun ni =>
          if ni.node.ty = "TEXT" then processTextNode ni.node ni.parentPath ni.depth
          else none) hrest
      have hemp : rest.isEmpty = false := by
        simpa [List.isEmpty_iff] using hrest
      refine ⟨Ev.progress (sendProgressUpdate cid "scan_text_nodes" "in_progress"
        (chunkProgress K j) N pr) ::
        ((chunk.flatMap fun ni =>
          (if ni.node.ty = "TEXT" then [Ev.delayEv 100] else []) ++ [Ev.delayEv 5]) ++
         Ev.progress (sendProgressUpdate cid "scan_text_nodes" "in_progress"
           (chunkProgress K (j + 1)) N (pr + chunk.length)) :: Ev.delayEv 50 :: pre), ?_⟩
      simp only [scanChunkLoop, hemp, Bool.false_eq_true, if_neg, Bool.not_eq_true]
      rw [hpre]
      have e1 : j + 1 + rest.length = j + (chunk :: rest).length := by
        simp; omega
      have e2 : pr + chunk.length + (rest.map List.length).sum =
          pr + ((chunk :: rest).map List.length).sum := by
        simp; omega
      rw [e1, e2]
      simp

/-! ### The text-replacement chunk loop -/

theorem countP_success_add (l : List ItemResult) :
    l.countP (·.success) + l.countP (fun x => !x.success) = l.length := by
  induction l with
  | nil => rfl
  | cons a t ih => by_cases h : a.success <;> simp [List.countP_cons, h] <;> omega

theorem smtcChunkLoop_events (env : TextEnv) (cid : String) (N K : Nat)
    (chunks : List (List Replacement)) (j sc fc : Nat) (res : List ItemResult) :
    progressOf (smtcChunkLoop env cid N K chunks j sc fc res).1 =
      chunkLoopEvents cid "set_multiple_text_contents" N K
        (chunks.map List.length) j (sc + fc) := by
  induction chunks generalizing j sc fc res with
  | nil => rfl
  | cons chunk rest ih =>
    have hcnt : (chunk.map (applyReplacement env)).countP (·.success) +
        (chunk.map (applyReplacement env)).countP (fun x => !x.success) = chunk.length := by
      rw [countP_success_add, List.length_map]
    simp only [smtcChunkLoop, List.map_cons, chunkLoopEvents, progressOf_cons_progress,
      progressOf_append, progressOf_smtcItemEvs, List.nil_append, progressOf_interEvs, ih]
    have e1 : sc + (chunk.map (applyReplacement env)).countP (·.success) +
        (fc + (chunk.map (applyReplacement env)).countP (fun x => !x.success)) =
        sc + fc + chunk.length := by omega
    rw [e1]
    simp

theorem smtcChunkLoop_state (env : TextEnv) (cid : String) (N K : Nat)
    (chunks : List (List Replacement)) (j sc fc : Nat) (res : List ItemResult) :
    (smtcChunkLoop env cid N K chunks j sc fc res).2.1 =
      sc + (chunks.flatten.map (applyReplacement env)).countP (·.success) ∧
    (smtcChunkLoop env cid N K chunks j sc fc res).2.2.1 =
      fc + (chunks.flatten.map (applyReplacement env)).countP (fun x => !x.success) ∧
    (smtcChunkLoop env cid N K chunks j sc fc res).2.2.2 =
      res ++ chunks.flatten.map (applyReplacement env) := by
  induction chunks generalizing j sc fc res with
  | nil => simp [smtcChunkLoop]
  | cons chunk rest ih =>
    simp only [smtcChunkLoop]
    obtain ⟨h1, h2, h3⟩ := ih (j + 1)
      (sc + (chunk.map (applyReplacement env)).countP (·.success))
      (fc + (chunk.map (applyReplacement env)).countP (fun x => !x.success))
      (res ++ chunk.map (applyReplacement env))
    refine ⟨?_, ?_, ?_⟩
    · rw [h1]
      simp [List.countP_append]
      omega
    · rw [h2]
      simp [List.countP_append]
      omega
    · rw [h3]
      simp

theorem smtcChunkLoop_countDelay1000 (env : TextEnv) (cid : String) (N K : Nat)
    (chunks : List (List Replacement)) (j sc fc : Nat) (res : List ItemResult) :
    countDelay (smtcChunkLoop env cid N K chunks j sc fc res).1 1000 =
      chunks.length - 1 := by
  induction chunks generalizing j sc fc res with
  | nil => simp [smtcChunkLoop]
  | cons chunk rest ih =>
    simp only [smtcChunkLoop, countDelay_cons_progress, countDelay_append,
      countDelay_smtcItemEvs, countDelay_interEvs, ih]
    rcases rest with _ | ⟨r2, rest2⟩
    · simp
    · simp
      omega

theorem smtcChunkLoop_lastEvent (env : TextEnv) (cid : String) (N K : Nat)
    (chunks : List (List Replacement)) (j sc fc : Nat) (res : List ItemResult)
    (h : chunks ≠ []) :
    ∃ pre, (smtcChunkLoop env cid N K chunks j sc fc res).1 =
      pre ++ [Ev.progress (sendProgressUpdate cid "set_multiple_text_contents"
        "in_progress" (chunkProgress K (j + chunks.length)) N
        (sc + fc + (chunks.map List.length).sum))] := by
  induction chunks generalizing j sc fc res with
  | nil => exact absurd rfl h
  | cons chunk rest ih =>
    have hcnt : (chunk.map (applyReplacement env)).countP (·.success) +
        (chunk.map (applyReplacement env)).countP (fun x => !x.success) = chunk.length := by
      rw [countP_success_add, List.length_map]
    by_cases hrest : rest = []
    · subst hrest
      refine ⟨Ev.progress (sendProgressUpdate cid "set_multiple_text_contents"
        "in_progress" (chunkProgress K j) N (sc + fc)) ::
        (chunk.flatMap fun r =>
          if (applyReplacement env r).success then [Ev.delayEv 500] else []), ?_⟩
      simp only [smtcChunkLoop, List.isEmpty_nil, if_pos]
      simp only [List.length_cons, List.length_nil, List.map_cons, List.map_nil,
        List.sum_cons, List.sum_nil]
      have e1 : sc + (chunk.map (applyReplacement env)).countP (·.success) +
          (fc + (chunk.map (applyReplacement env)).countP (fun x => !x.success)) =
          sc + fc + (chunk.length + 0) := by omega
      rw [e1]
      simp
    · obtain ⟨pre, hpre⟩ := ih (j + 1)
        (sc + (chunk.map (applyReplacement env)).countP (·.success))
        (fc + (chunk.map (applyReplacement env)).countP (fun x => !x.success))
        (res ++ chunk.map (applyReplacement env)) hrest
      have hemp : rest.isEmpty = false := by
        simpa [List.isEmpty_iff] using hrest
      refine ⟨Ev.progress (sendProgressUpdate cid "set_multiple_text_contents"
        "in_progress" (chunkProgress K j) N (sc + fc)) ::
        ((chunk.flatMap fun r =>
          if (applyReplacement env r).success then [Ev.delayEv 500] else []) ++
         Ev.progress (sendProgressUpdate cid "set_multiple_text_contents" "in_progress"
           (chunkProgress K (j + 1)) N
           (sc + (chunk.map (applyReplacement env)).countP (·.success) +
            (fc + (chunk.map (applyReplacement env)).countP (fun x => !x.success)))) ::
         Ev.delayEv 1000 :: pre), ?_⟩
      simp only [smtcChunkLoop, hemp, Bool.false_eq_true, if_neg, Bool.not_eq_true]
      rw [hpre]
      have e1 : j + 1 + rest.length = j + (chunk :: rest).length := by
        simp; omega
      have e2 : sc + (chunk.map (applyReplacement env)).countP (·.success) +
          (fc + (chunk.map (applyReplacement env)).countP (fun x => !x.success)) +
          (rest.map List.length).sum =
          sc + fc + ((chunk :: rest).map List.length).sum := by
        simp only [List.map_cons, List.sum_cons]
        omega
      rw [e1, e2]
      simp

/-! ### Top-level trace shapes -/

theorem flatMap_filterMap_flatten (L : List (List α)) (f : α → Option β) :
    (L.flatMap fun c => c.filterMap f) = L.flatten.filterMap f := by
  induction L with
  | nil => rfl
  | cons c r ih => simp [ih]

theorem scanTextNodesChunked_events (cid : String) (root : FNode) (C : Nat)
    (hC : 0 < C) :
    progressOf (scanTextNodesChunked cid root C).1 =
      sendProgressUpdate cid "scan_text_nodes" "started" 0 0 0 ::
      sendProgressUpdate cid "scan_text_nodes" "in_progress" 5
        (collectNodesToProcess root [] 0).length 0 ::
      chunkLoopEvents cid "scan_text_nodes" (collectNodesToProcess root [] 0).length
        (divCeil (collectNodesToProcess root [] 0).length C)
        ((buildChunks C (collectNodesToProcess root [] 0)).map List.length) 0 0 ++
      [sendProgressUpdate cid "scan_text_nodes" "completed" 100
        (collectNodesToProcess root [] 0).length
        (collectNodesToProcess root [] 0).length] := by
  simp only [scanTextNodesChunked, progressOf_cons_progress, progressOf_append,
    scanChunkLoop_events, scanChunkLoop_processed, Nat.zero_add,
    buildChunks_sum_lengths C hC]
  simp

theorem scanTextNodesChunked_processed (cid : String) (root : FNode) (C : Nat)
    (hC : 0 < C) :
    (scanTextNodesChunked cid root C).2.processedNodes =
      (collectNodesToProcess root [] 0).length := by
  simp only [scanTextNodesChunked, scanChunkLoop_processed, Nat.zero_add,
    buildChunks_sum_lengths C hC]

theorem scanTextNodesChunked_textNodes (cid : String) (root : FNode) (C : Nat)
    (hC : 0 < C) :
    (scanTextNodesChunked cid root C).2.textNodes =
      (collectNodesToProcess root [] 0).filterMap fun ni =>
        if ni.node.ty = "TEXT" then processTextNode ni.node ni.parentPath ni.depth
        else none := by
  simp only [scanTextNodesChunked, scanChunkLoop_textNodes, List.nil_append,
    flatMap_filterMap_flatten, buildChunks_flatten C hC]

theorem scanTextNodesChunked_countDelay50 (cid : String) (root : FNode) (C : Nat)
    (hC : 0 < C) :
    countDelay (scanTextNodesChunked cid root C).1 50 =
      divCeil (collectNodesToProcess root [] 0).length C - 1 := by
  simp only [scanTextNodesChunked, countDelay_cons_progress, countDelay_append,
    scanChunkLoop_countDelay50, buildChunks_length C hC]
  simp

theorem scanTextNodesChunked_lastEvents (cid : String) (root : FNode) (C : Nat)
    (hC : 0 < C) (hN : 0 < (collectNodesToProcess root [] 0).length) :
    ∃ pre u, (scanTextNodesChunked cid root C).1 =
      pre ++ [Ev.progress u,
        Ev.progress (sendProgressUpdate cid "scan_text_nodes" "completed" 100
          (collectNodesToProcess root [] 0).length
          (collectNodesToProcess root [] 0).length)] ∧
      u.status = "in_progress" := by
  have hne : buildChunks C (collectNodesToProcess root [] 0) ≠ [] := by
    have := buildChunks_pos C hC (collectNodesToProcess root [] 0) hN
    intro h0
    rw [h0] at this
    simp at this
  obtain ⟨pre, hpre⟩ := scanChunkLoop_lastEvent cid
    (collectNodesToProcess root [] 0).length
    (divCeil (collectNodesToProcess root [] 0).length C)
    (buildChunks C (collectNodesToProcess root [] 0)) 0 0 [] hne
  refine ⟨Ev.progress (sendProgressUpdate cid "scan_text_nodes" "started" 0 0 0) ::
    Ev.progress (sendProgressUpdate cid "scan_text_nodes" "in_progress" 5
      (collectNodesToProcess root [] 0).length 0) :: pre,
    sendProgressUpdate cid "scan_text_nodes" "in_progress"
      (chunkProgress (divCeil (collectNodesToProcess root [] 0).length C)
        (0 + (buildChunks C (collectNodesToProcess root [] 0)).length))
      (collectNodesToProcess root [] 0).length
      (0 + ((buildChunks C (collectNodesToProcess root [] 0)).map List.length).sum),
    ?_, rfl⟩
  simp only [scanTextNodesChunked, scanChunkLoop_processed, Nat.zero_add,
    buildChunks_sum_lengths C hC, hpre]
  simp

theorem setMultipleTextContents_valid (env : TextEnv) (nodeId : String)
    (text : List Replacement) (cid : String) (hn : nodeId ≠ "") :
    setMultipleTextContents env (some nodeId) (some text) cid =
      (Ev.progress (sendProgressUpdate cid "set_multiple_text_contents" "started" 0
          text.length 0) ::
       Ev.progress (sendProgressUpdate cid "set_multiple_text_contents" "in_progress" 5
          text.length 0) ::
       (smtcChunkLoop env cid text.length (buildChunks 5 text).length
          (buildChunks 5 text) 0 0 0 []).1 ++
       [Ev.progress (sendProgressUpdate cid "set_multiple_text_contents" "completed" 100
          text.length
          ((smtcChunkLoop env cid text.length (buildChunks 5 text).length
             (buildChunks 5 text) 0 0 0 []).2.1 +
           (smtcChunkLoop env cid text.length (buildChunks 5 text).length
             (buildChunks 5 text) 0 0 0 []).2.2.1))],
       Except.ok
         { success := decide (0 < (smtcChunkLoop env cid text.length
             (buildChunks 5 text).length (buildChunks 5 text) 0 0 0 []).2.1),
           nodeId := nodeId,
           replacementsApplied := (smtcChunkLoop env cid text.length
             (buildChunks 5 text).length (buildChunks 5 text) 0 0 0 []).2.1,
           replacementsFailed := (smtcChunkLoop env cid text.length
             (buildChunks 5 text).length (buildChunks 5 text) 0 0 0 []).2.2.1,
           totalReplacements := text.length,
           results := (smtcChunkLoop env cid text.length
             (buildChunks 5 text).length (buildChunks 5 text) 0 0 0 []).2.2.2,
           completedInChunks := (buildChunks 5 text).length,
           commandId := cid }) := by
  simp [setMultipleTextContents, jsFalsy, hn]

theorem setMultipleTextContents_events (env : TextEnv) (nodeId : String)
    (text : List Replacement) (cid : String) (hn : nodeId ≠ "") :
    progressOf (setMultipleTextContents env (some nodeId) (some text) cid).1 =
      sendProgressUpdate cid "set_multiple_text_contents" "started" 0 text.length 0 ::
      sendProgressUpdate cid "set_multiple_text_contents" "in_progress" 5 text.length 0 ::
      chunkLoopEvents cid "set_multiple_text_contents" text.length
        (divCeil text.length 5) ((buildChunks 5 text).map List.length) 0 0 ++
      [sendProgressUpdate cid "set_multiple_text_contents" "completed" 100
        text.length text.length] := by
  have hflat : (buildChunks 5 text).flatten = text := buildChunks_flatten 5 (by omega) text
  obtain ⟨h1, h2, _⟩ := smtcChunkLoop_state env cid text.length
    (buildChunks 5 text).length (buildChunks 5 text) 0 0 0 []
  have hcnt := countP_success_add ((buildChunks 5 text).flatten.map (applyReplacement env))
  rw [hflat, List.length_map] at hcnt
  have hstate : (smtcChunkLoop env cid text.length (buildChunks 5 text).length
        (buildChunks 5 text) 0 0 0 []).2.1 +
      (smtcChunkLoop env cid text.length (buildChunks 5 text).length
        (buildChunks 5 text) 0 0 0 []).2.2.1 = text.length := by
    rw [h1, h2, hflat]
    omega
  rw [setMultipleTextContents_valid env nodeId text cid hn]
  dsimp only
  rw [hstate]
  simp only [progressOf_cons_progress, progressOf_append, progressOf_nil,
    smtcChunkLoop_events, Nat.add_zero, Nat.zero_add, List.nil_append]
  rw [buildChunks_length 5 (by omega) text]

theorem setMultipleTextContents_result (env : TextEnv) (nodeId : String)
    (text : List Replacement) (cid : String) (hn : nodeId ≠ "") :
    (setMultipleTextContents env (some nodeId) (some text) cid).2 =
      Except.ok
        { success := decide (0 < (text.map (applyReplacement env)).countP (·.success)),
          nodeId := nodeId,
          replacementsApplied := (text.map (applyReplacement env)).countP (·.success),
          replacementsFailed :=
            (text.map (applyReplacement env)).countP (fun x => !x.success),
          totalReplacements := text.length,
          results := text.map (applyReplacement env),
          completedInChunks := divCeil text.length 5,
          commandId := cid } := by
  have hflat : (buildChunks 5 text).flatten = text := buildChunks_flatten 5 (by omega) text
  obtain ⟨h1, h2, h3⟩ := smtcChunkLoop_state env cid text.length
    (buildChunks 5 text).length (buildChunks 5 text) 0 0 0 []
  rw [hflat] at h1 h2 h3
  rw [setMultipleTextContents_valid env nodeId text cid hn]
  dsimp only
  rw [h1, h2, h3, buildChunks_length 5 (by omega) text]
  simp only [Nat.zero_add, List.nil_append]

theorem setMultipleTextContents_countDelay1000 (env : TextEnv) (nodeId : String)
    (text : List Replacement) (cid : String) (hn : nodeId ≠ "") :
    countDelay (setMultipleTextContents env (some nodeId) (some text) cid).1 1000 =
      divCeil text.length 5 - 1 := by
  rw [setMultipleTextContents_valid env nodeId text cid hn]
  simp only [countDelay_cons_progress, countDelay_append, smtcChunkLoop_countDelay1000,
    buildChunks_length 5 (by omega) text]
  simp

theorem setMultipleTextContents_lastEvents (env : TextEnv) (nodeId : String)
    (text : List Replacement) (cid : String) (hn : nodeId ≠ "")
    (hN : 0 < text.length) :
    ∃ pre u, (setMultipleTextContents env (some nodeId) (some text) cid).1 =
      pre ++ [Ev.progress u,
        Ev.progress (sendProgressUpdate cid "set_multiple_text_contents" "completed" 100
          text.length text.length)] ∧
      u.status = "in_progress" := by
  have hne : buildChunks 5 text ≠ [] := by
    have := buildChunks_pos 5 (by omega) text hN
    intro h0
    rw [h0] at this
    simp at this
  obtain ⟨pre, hpre⟩ := smtcChunkLoop_lastEvent env cid text.length
    (buildChunks 5 text).length (buildChunks 5 text) 0 0 0 [] hne
  have hflat : (buildChunks 5 text).flatten = text := buildChunks_flatten 5 (by omega) text
  obtain ⟨h1, h2, _⟩ := smtcChunkLoop_state env cid text.length
    (buildChunks 5 text).length (buildChunks 5 text) 0 0 0 []
  have hcnt := countP_success_add ((buildChunks 5 text).flatten.map (applyReplacement env))
  rw [hflat, List.length_map] at hcnt
  have hstate : (smtcChunkLoop env cid text.length (buildChunks 5 text).length
        (buildChunks 5 text) 0 0 0 []).2.1 +
      (smtcChunkLoop env cid text.length (buildChunks 5 text).length
        (buildChunks 5 text) 0 0 0 []).2.2.1 = text.length := by
    rw [h1, h2, hflat]
    omega
  refine ⟨Ev.progress (sendProgressUpdate cid "set_multiple_text_contents" "started" 0
      text.length 0) ::
    Ev.progress (sendProgressUpdate cid "set_multiple_text_contents" "in_progress" 5
      text.length 0) :: pre,
    sendProgressUpdate cid "set_multiple_text_contents" "in_progress"
      (chunkProgress (buildChunks 5 text).length (0 + (buildChunks 5 text).length))
      text.length (0 + 0 + ((buildChunks 5 text).map List.length).sum),
    ?_, rfl⟩
  rw [setMultipleTextContents_valid env nodeId text cid hn]
  dsimp only
  rw [hstate, hpre]
  simp

/-! ### Invisible subtrees are pruned by both traversals -/

/-- Traversal of an optional root, `[]` when the root was pruned away. -/
def findTextNodesO : Option FNode → List String → Nat → List SafeTextNode
  | none, _, _ => []
  | some n, p, d => findTextNodes n p d

/-- Collection over an optional root, `[]` when the root was pruned away. -/
def collectO : Option FNode → List String → Nat → List NodeToProcess
  | none, _, _ => []
  | some n, p, d => collectNodesToProcess n p d

theorem findTextNodesL_append (a b : List FNode) (p : List String) (d : Nat) :
    findTextNodesL (a ++ b) p d = findTextNodesL a p d ++ findTextNodesL b p d := by
  induction a with
  | nil => simp [findTextNodesL]
  | cons n ns ih => simp [findTextNodesL, ih]

theorem collectNodesToProcessL_append (a b : List FNode) (p : List String) (d : Nat) :
    collectNodesToProcessL (a ++ b) p d =
      collectNodesToProcessL a p d ++ collectNodesToProcessL b p d := by
  induction a with
  | nil => simp [collectNodesToProcessL]
  | cons n ns ih => simp [collectNodesToProcessL, ih]

mutual

theorem findTextNodes_prune (n : FNode) (p : List String) (d : Nat) :
    findTextNodes n p d = findTextNodesO (pruneInvisible n) p d := by
  cases n with
  | mk i nm t v ch children =>
    cases v with
    | false => simp [findTextNodes, pruneInvisible, findTextNodesO]
    | true =>
      simp only [findTextNodes, pruneInvisible, findTextNodesO, Bool.true_eq_false,
        if_neg, if_false]
      rw [findTextNodesL_prune children]

theorem findTextNodesL_prune (ns : List FNode) :
    ∀ (p : List String) (d : Nat),
      findTextNodesL ns p d = findTextNodesL (pruneInvisibleL ns) p d := by
  cases ns with
  | nil => intro p d; rfl
  | cons n rest =>
    intro p d
    rw [show pruneInvisibleL (n :: rest) =
      (match pruneInvisible n with
       | none => []
       | some m => [m]) ++ pruneInvisibleL rest from rfl]
    rw [findTextNodesL_append]
    rw [show findTextNodesL (n :: rest) p d =
      findTextNodes n p d ++ findTextNodesL rest p d from rfl]
    rw [findTextNodes_prune n p d, findTextNodesL_prune rest p d]
    cases h : pruneInvisible n with
    | none => simp [findTextNodesO, findTextNodesL]
    | some m => simp [findTextNodesO, findTextNodesL]

end

mutual

theorem collect_key_prune (n : FNode) (p : List String) (d : Nat) :
    (collectNodesToProcess n p d).map NodeToProcess.key =
      (collectO (pruneInvisible n) p d).map NodeToProcess.key := by
  cases n with
  | mk i nm t v ch children =>
    cases v with
    | false => simp [collectNodesToProcess, pruneInvisible, collectO]
    | true =>
      simp only [collectNodesToProcess, pruneInvisible, collectO, Bool.true_eq_false,
        if_neg, if_false, List.map_cons]
      rw [collectL_key_prune children]
      rfl

theorem collectL_key_prune (ns : List FNode) :
    ∀ (p : List String) (d : Nat),
      (collectNodesToProcessL ns p d).map NodeToProcess.key =
        (collectNodesToProcessL (pruneInvisibleL ns) p d).map NodeToProcess.key := by
  cases ns with
  | nil => intro p d; rfl
  | cons n rest =>
    intro p d
    rw [show pruneInvisibleL (n :: rest) =
      (match pruneInvisible n with
       | none => []
       | some m => [m]) ++ pruneInvisibleL rest from rfl]
    rw [collectNodesToProcessL_append]
    rw [show collectNodesToProcessL (n :: rest) p d =
      collectNodesToProcess n p d ++ collectNodesToProcessL rest p d from rfl]
    rw [List.map_append, List.map_append]
    rw [collect_key_prune n p d, collectL_key_prune rest p d]
    cases h : pruneInvisible n with
    | none => simp [collectO, collectNodesToProcessL]
    | some m => simp [collectO, collectNodesToProcessL]

end

mutual

theorem collect_visible (n : FNode) (p : List String) (d : Nat) :
    ∀ i ∈ collectNodesToProcess n p d, i.node.visible = true := by
  cases n with
  | mk i nm t v ch children =>
    cases v with
    | false => simp [collectNodesToProcess]
    | true =>
      intro x hx
      simp only [collectNodesToProcess, Bool.true_eq_false, if_neg, if_false,
        List.mem_cons] at hx
      rcases hx with hx | hx
      · subst hx; rfl
      · exact collectL_visible children _ _ x hx

theorem collectL_visible (ns : List FNode) :
    ∀ (p : List String) (d : Nat),
      ∀ i ∈ collectNodesToProcessL ns p d, i.node.visible = true := by
  cases ns with
  | nil => intro p d i hi; simp [collectNodesToProcessL] at hi
  | cons n rest =>
    intro p d i hi
    rw [show collectNodesToProcessL (n :: rest) p d =
      collectNodesToProcess n p d ++ collectNodesToProcessL rest p d from rfl] at hi
    rw [List.mem_append] at hi
    rcases hi with hi | hi
    · exact collect_visible n p d i hi
    · exact collectL_visible rest p d i hi

end

/-! ### Remaining helpers -/

theorem scanTextNodes_some_chunked (root : FNode) (C : Nat) (cid : String) :
    scanTextNodes (some root) true C cid =
      ((scanTextNodesChunked cid root C).1,
       Except.ok (ScanOutcome.chunked (scanTextNodesChunked cid root C).2)) := by
  simp [scanTextNodes]

theorem scanTextNodes_some_noChunk (root : FNode) (C : Nat) (cid : String) :
    scanTextNodes (some root) false C cid =
      ((scanTextNodesNoChunk cid root).1,
       Except.ok (ScanOutcome.noChunk (scanTextNodesNoChunk cid root).2)) := by
  simp [scanTextNodes]

theorem applyReplacement_failure_error (env : TextEnv) (r : Replacement) :
    (applyReplacement env r).success = false →
    (applyReplacement env r).error.isSome = true := by
  unfold applyReplacement
  dsimp only
  split
  · intro _; rfl
  · split
    · intro _; rfl
    · split
      · intro _; rfl
      · split
        · intro _; rfl
        · intro hs
          simp at hs

theorem mem_channelOf [DecidableEq π] (reg : Registry π)
    (hnd : (reg.map Prod.fst).Nodup) {p : π} {ch v : String}
    (hp : channelOf reg p = some ch) (hmem : (p, v) ∈ reg) : v = ch := by
  induction reg with
  | nil => simp at hmem
  | cons q rest ih =>
    rw [List.map_cons, List.nodup_cons] at hnd
    by_cases heq : q.1 = p
    · have hq : channelOf (q :: rest) p = some q.2 := by
        simp [channelOf, List.find?_cons, heq]
      rw [hq] at hp
      rcases List.mem_cons.mp hmem with hqm | hm
      · rw [← hqm] at hp
        simpa using hp
      · exfalso
        apply hnd.1
        rw [heq]
        exact List.mem_map.mpr ⟨(p, v), hm, rfl⟩
    · have hq : channelOf (q :: rest) p = channelOf rest p := by
        simp [channelOf, List.find?_cons, heq]
      rw [hq] at hp
      rcases List.mem_cons.mp hmem with hqm | hm
      · exact absurd (by rw [← hqm]) heq
      · exact ih hnd.2 hp hm

/-! ### Sample inputs used by witnesses and counterexamples -/

def sampleTextNode : FNode := FNode.mk "a" "A" "TEXT" true "hello" []

def sampleTextNodeB : FNode := FNode.mk "b" "B" "TEXT" true "world" []

def sampleEnv : TextEnv :=
  { doc := [("a", sampleTextNode), ("b", sampleTextNodeB)],
    applyText := fun _ _ => Except.ok () }

def sampleReplacement : Replacement := { nodeId := some "a", text := some "x" }

def sampleBadReplacement : Replacement := { nodeId := some "zz", text := some "x" }

def sampleTree : FNode :=
  FNode.mk "r" "Root" "FRAME" true ""
    [sampleTextNode,
     FNode.mk "g" "Grp" "GROUP" false "" [FNode.mk "h" "H" "TEXT" true "hidden" []],
     sampleTextNodeB]

/-! ### Claims -/

/-- C1: for every execute-command message, the handler's own posts (all
progress messages) are followed by exactly one response envelope —
`command-result` carrying the return value when `handleCommand` resolves,
`command-error` carrying the message when it throws — with the incoming
`id`; the `try`/`catch` turns every handler failure into an envelope, so
no exception escapes the dispatch branch. -/
theorem c1_exactly_one_response {α : Type} (id : String)
    (handlerPosts : List (UIMessage α)) (outcome : Except String α)
    (hprog : ∀ m ∈ handlerPosts, m.isResponse = false) :
    ((executeCommandBranch id handlerPosts outcome).filter (·.isResponse)).length = 1 ∧
    (∀ m ∈ (executeCommandBranch id handlerPosts outcome).filter (·.isResponse),
      m.respId = some id) ∧
    ((∃ r, outcome = Except.ok r) ↔
      ∃ r, (executeCommandBranch id handlerPosts outcome).filter (·.isResponse) =
        [UIMessage.commandResult id r]) := by
  have hfil : (executeCommandBranch id handlerPosts outcome).filter (·.isResponse) =
      [match outcome with
       | Except.ok result => UIMessage.commandResult id result
       | Except.error e =>
           UIMessage.commandError id (if e = "" then "Error executing command" else e)] := by
    rw [executeCommandBranch.eq_def, List.filter_append]
    rw [List.filter_eq_nil_iff.mpr (by intro m hm; simp [hprog m hm])]
    cases outcome <;> simp [UIMessage.isResponse]
  rw [hfil]
  cases outcome with
  | ok r =>
    refine ⟨rfl, ?_, ?_⟩
    · intro m hm
      simp only [List.mem_singleton] at hm
      subst hm
      rfl
    · exact ⟨fun _ => ⟨r, rfl⟩, fun _ => ⟨r, rfl⟩⟩
  | error e =>
    refine ⟨rfl, ?_, ?_⟩
    · intro m hm
      simp only [List.mem_singleton] at hm
      subst hm
      rfl
    · constructor
      · rintro ⟨r, hr⟩
        cases hr
      · rintro ⟨r, hr⟩
        simp at hr

/-- Witness for C1 at a concrete input. -/
theorem c1_exactly_one_response_witness :
    (∀ m ∈ ([] : List (UIMessage Nat)), m.isResponse = false) ∧
    (((executeCommandBranch "42" ([] : List (UIMessage Nat))
        (Except.ok 7)).filter (·.isResponse)).length = 1 ∧
     (∀ m ∈ (executeCommandBranch "42" ([] : List (UIMessage Nat))
        (Except.ok 7)).filter (·.isResponse), m.respId = some "42") ∧
     ((∃ r, (Except.ok 7 : Except String Nat) = Except.ok r) ↔
       ∃ r, (executeCommandBranch "42" ([] : List (UIMessage Nat))
          (Except.ok 7)).filter (·.isResponse) = [UIMessage.commandResult "42" r])) :=
  ⟨by intro m hm; simp at hm,
   c1_exactly_one_response "42" [] (Except.ok 7) (by intro m hm; simp at hm)⟩

/-- C6: a frame broadcast by a peer of one channel is delivered only to
other peers of that same channel; a peer whose membership is a different
channel never appears among the recipients.  (Channel Registry modelled
from the spec, §4.1.) -/
theorem c6_channel_isolation {π α : Type} [DecidableEq π] (reg : Registry π)
    (hnd : (reg.map Prod.fst).Nodup) (sender p : π) (chA chB : String)
    (hs : channelOf reg sender = some chA) (hp : channelOf reg p = some chB)
    (hne : chA ≠ chB) (frame : α) :
    ∀ x ∈ broadcast reg sender frame, x.1 ≠ p := by
  intro x hx hxp
  rw [broadcast, hs] at hx
  simp only [List.mem_map, List.mem_filter, Bool.and_eq_true, decide_eq_true_eq] at hx
  obtain ⟨q, ⟨hqmem, hqch, _⟩, hq⟩ := hx
  have hqp : q.1 = p := by rw [← hq] at hxp; exact hxp
  have hpa : (p, chA) ∈ reg := by
    have : q = (p, chA) := by
      rcases q with ⟨q1, q2⟩
      simp only at hqp hqch
      rw [hqp, hqch]
    rw [← this]
    exact hqmem
  exact hne (mem_channelOf reg hnd hp hpa)

/-- Witness for C6 at a concrete registry of two channels. -/
theorem c6_channel_isolation_witness :
    ((([((0 : Nat), "A"), (1, "A"), (2, "B"), (3, "B")] : Registry Nat).map
        Prod.fst).Nodup ∧
     channelOf ([(0, "A"), (1, "A"), (2, "B"), (3, "B")] : Registry Nat) 0 = some "A" ∧
     channelOf ([(0, "A"), (1, "A"), (2, "B"), (3, "B")] : Registry Nat) 2 = some "B" ∧
     "A" ≠ "B") ∧
    ∀ x ∈ broadcast ([(0, "A"), (1, "A"), (2, "B"), (3, "B")] : Registry Nat) 0
      (42 : Nat), x.1 ≠ 2 :=
  ⟨⟨by decide, by decide, by decide, by decide⟩,
   c6_channel_isolation [(0, "A"), (1, "A"), (2, "B"), (3, "B")] (by decide) 0 2 "A" "B"
     (by decide) (by decide) (by decide) 42⟩

/-- Property of one command run: its progress percentages never decrease,
every `completed` event reports exactly 100, and a successful run ends with
a `completed` event at 100. -/
def MonotoneTerminalSpec (trace : List Ev) (outcomeOk : Bool) : Prop :=
  List.Chain' (· ≤ ·) (progressValues trace) ∧
  (∀ u ∈ progressOf trace, u.status = "completed" → u.progress = 100) ∧
  (outcomeOk = true → ∃ u, (progressOf trace).getLast? = some u ∧
    u.status = "completed" ∧ u.progress = 100)

theorem scanProgressSpec (node? : Option FNode) (useChunking : Bool) (C : Nat)
    (cid : String) (hC : 0 < C) :
    MonotoneTerminalSpec (scanTextNodes node? useChunking C cid).1
      (scanTextNodes node? useChunking C cid).2.isOk := by
  cases node? with
  | none =>
    refine ⟨?_, ?_, ?_⟩
    · simp [scanTextNodes, progressValues, progressOf]
    · intro u hu hc
      simp only [scanTextNodes, progressOf_cons_progress, progressOf_nil,
        List.mem_singleton] at hu
      subst hu
      simp [sendProgressUpdate] at hc
    · intro hok
      simp [scanTextNodes, Except.isOk, Except.toBool] at hok
  | some root =>
    cases useChunking with
    | false =>
      rw [scanTextNodes_some_noChunk]
      refine ⟨?_, ?_, ?_⟩
      · simp only [scanTextNodesNoChunk, progressValues, progressOf_cons_progress,
          progressOf_nil, List.map_cons, List.map_nil, sendProgressUpdate]
        exact List.chain'_cons.mpr ⟨by omega, List.chain'_singleton _⟩
      · intro u hu hc
        simp only [scanTextNodesNoChunk, progressOf_cons_progress, progressOf_nil,
          List.mem_cons, List.mem_singleton, List.not_mem_nil, or_false] at hu
        rcases hu with hu | hu
        · subst hu
          simp [sendProgressUpdate] at hc
        · subst hu
          rfl
      · intro _
        refine ⟨sendProgressUpdate cid "scan_text_nodes" "completed" 100
          (findTextNodes root [] 0).length (findTextNodes root [] 0).length, ?_, rfl, rfl⟩
        simp [scanTextNodesNoChunk]
    | true =>
      rw [scanTextNodes_some_chunked]
      have hev := scanTextNodesChunked_events cid root C hC
      have hlen : ((buildChunks C (collectNodesToProcess root [] 0)).map
          List.length).length = divCeil (collectNodesToProcess root [] 0).length C := by
        rw [List.length_map, buildChunks_length C hC]
      refine ⟨?_, ?_, ?_⟩
      · rw [progressValues, hev]
        simp only [List.map_cons, List.map_append, chunkLoopEvents_map_progress, hlen,
          List.map_nil, sendProgressUpdate]
        exact fullChain (divCeil (collectNodesToProcess root [] 0).length C)
      · intro u hu hc
        rw [hev] at hu
        simp only [List.mem_cons, List.mem_append, List.mem_singleton] at hu
        rcases hu with (hu | hu | hu) | hu | hu
        · subst hu; simp [sendProgressUpdate] at hc
        · subst hu; simp [sendProgressUpdate] at hc
        · obtain ⟨hst, _⟩ := chunkLoopEvents_mem _ _ _ _ _ _ _ u hu
          rw [hst] at hc
          simp at hc
        · subst hu; rfl
        · simp at hu
      · intro _
        refine ⟨sendProgressUpdate cid "scan_text_nodes" "completed" 100
          (collectNodesToProcess root [] 0).length
          (collectNodesToProcess root [] 0).length, ?_, rfl, rfl⟩
        rw [hev]
        rw [List.getLast?_append_of_ne_nil _ (by simp)]
        rfl

theorem smtcProgressSpec (env : TextEnv) (nodeId? : Option String)
    (text? : Option (List Replacement)) (cid : String) :
    MonotoneTerminalSpec (setMultipleTextContents env nodeId? text? cid).1
      (setMultipleTextContents env nodeId? text? cid).2.isOk := by
  by_cases hcond : (jsFalsy nodeId? || text?.isNone) = true
  · have htr : setMultipleTextContents env nodeId? text? cid =
        ([Ev.progress (sendProgressUpdate cid "set_multiple_text_contents" "error" 0 0 0)],
         Except.error "Missing required parameters: nodeId and text array") := by
      unfold setMultipleTextContents
      rw [if_pos hcond]
    rw [htr]
    refine ⟨?_, ?_, ?_⟩
    · simp [progressValues, progressOf]
    · intro u hu hc
      simp only [progressOf_cons_progress, progressOf_nil, List.mem_singleton] at hu
      subst hu
      simp [sendProgressUpdate] at hc
    · intro hok
      simp [Except.isOk, Except.toBool] at hok
  · simp only [Bool.or_eq_true, not_or, Bool.not_eq_true] at hcond
    obtain ⟨hfal, hnone⟩ := hcond
    cases nodeId? with
    | none => simp [jsFalsy] at hfal
    | some s =>
      cases text? with
      | none => simp at hnone
      | some text =>
        have hs : s ≠ "" := by
          simpa [jsFalsy] using hfal
        have hev := setMultipleTextContents_events env s text cid hs
        have hres := setMultipleTextContents_result env s text cid hs
        have hlen : ((buildChunks 5 text).map List.length).length =
            divCeil text.length 5 := by
          rw [List.length_map, buildChunks_length 5 (by omega) text]
        refine ⟨?_, ?_, ?_⟩
        · rw [progressValues, hev]
          simp only [List.map_cons, List.map_append, chunkLoopEvents_map_progress, hlen,
            List.map_nil, sendProgressUpdate]
          exact fullChain (divCeil text.length 5)
        · intro u hu hc
          rw [hev] at hu
          simp only [List.mem_cons, List.mem_append, List.mem_singleton] at hu
          rcases hu with (hu | hu | hu) | hu | hu
          · subst hu; simp [sendProgressUpdate] at hc
          · subst hu; simp [sendProgressUpdate] at hc
          · obtain ⟨hst, _⟩ := chunkLoopEvents_mem _ _ _ _ _ _ _ u hu
            rw [hst] at hc
            simp at hc
          · subst hu; rfl
          · simp at hu
        · intro _
          refine ⟨sendProgressUpdate cid "set_multiple_text_contents" "completed" 100
            text.length text.length, ?_, rfl, rfl⟩
          rw [hev]
          rw [List.getLast?_append_of_ne_nil _ (by simp)]
          rfl

/-- C2: for every execution of `scan_text_nodes` or
`set_multiple_text_contents`, the progress values of the emitted Progress
Events are non-decreasing in emission order, every `completed` event
reports progress exactly 100, and a successful run terminates with that
`completed` event. -/
theorem c2_progress_monotone_terminal (node? : Option FNode) (useChunking : Bool)
    (chunkSize : Nat) (cid : String) (env : TextEnv) (nodeId? : Option String)
    (text? : Option (List Replacement)) (cid2 : String) (hC : 0 < chunkSize) :
    MonotoneTerminalSpec (scanTextNodes node? useChunking chunkSize cid).1
      (scanTextNodes node? useChunking chunkSize cid).2.isOk ∧
    MonotoneTerminalSpec (setMultipleTextContents env nodeId? text? cid2).1
      (setMultipleTextContents env nodeId? text? cid2).2.isOk :=
  ⟨scanProgressSpec node? useChunking chunkSize cid hC,
   smtcProgressSpec env nodeId? text? cid2⟩

/-- Witness for C2 at concrete inputs. -/
theorem c2_progress_monotone_terminal_witness :
    0 < 2 ∧
    (MonotoneTerminalSpec (scanTextNodes (some sampleTree) true 2 "c").1
      (scanTextNodes (some sampleTree) true 2 "c").2.isOk ∧
     MonotoneTerminalSpec
       (setMultipleTextContents sampleEnv (some "n") (some [sampleReplacement]) "d").1
       (setMultipleTextContents sampleEnv (some "n") (some [sampleReplacement]) "d").2.isOk) :=
  ⟨by decide,
   c2_progress_monotone_terminal (some sampleTree) true 2 "c" sampleEnv (some "n")
     (some [sampleReplacement]) "d" (by decide)⟩

/-- Count and final processed-items value of the `in_progress` events of a
chunked run over `N` items split into `K` chunk groups. -/
def InProgressCountSpec (trace : List Ev) (N K : Nat) : Prop :=
  ((progressOf trace).filter fun u => u.status == "in_progress").length = 2 * K + 1 ∧
  (0 < N → ∃ u,
    ((progressOf trace).filter fun u => u.status == "in_progress").getLast? = some u ∧
    u.processedItems = N)

theorem inProgressSpec_of_events (trace : List Ev) (cid cty : String)
    (N K t0 : Nat) (lens : List Nat)
    (hev : progressOf trace =
      sendProgressUpdate cid cty "started" 0 t0 0 ::
      sendProgressUpdate cid cty "in_progress" 5 N 0 ::
      chunkLoopEvents cid cty N K lens 0 0 ++
      [sendProgressUpdate cid cty "completed" 100 N N])
    (hlenK : lens.length = K) (hsum : lens.sum = N) :
    InProgressCountSpec trace N K := by
  have hbeq1 : (("completed" : String) == "in_progress") = false := by decide
  have hbeq2 : (("started" : String) == "in_progress") = false := by decide
  have hbeq3 : (("in_progress" : String) == "in_progress") = true := by decide
  have hcle : (chunkLoopEvents cid cty N K lens 0 0).filter
      (fun u => u.status == "in_progress") = chunkLoopEvents cid cty N K lens 0 0 := by
    apply List.filter_eq_self.mpr
    intro u hu
    obtain ⟨hst, _⟩ := chunkLoopEvents_mem cid cty N K lens 0 0 u hu
    rw [hst]
    exact hbeq3
  have hfil : (progressOf trace).filter (fun u => u.status == "in_progress") =
      sendProgressUpdate cid cty "in_progress" 5 N 0 ::
      chunkLoopEvents cid cty N K lens 0 0 := by
    rw [hev, List.filter_append]
    simp only [List.filter_cons, List.filter_nil, sendProgressUpdate, hbeq1, hbeq2,
      hbeq3, if_true, if_false, Bool.false_eq_true]
    rw [hcle]
    simp [sendProgressUpdate]
  constructor
  · rw [hfil]
    simp only [List.length_cons, chunkLoopEvents_length]
    omega
  · intro hN
    have hlne : lens ≠ [] := by
      rintro rfl
      simp at hsum
      omega
    have hclne : chunkLoopEvents cid cty N K lens 0 0 ≠ [] := by
      cases lens with
      | nil => exact absurd rfl hlne
      | cons a t => simp [chunkLoopEvents]
    refine ⟨sendProgressUpdate cid cty "in_progress"
      (chunkProgress K (0 + lens.length)) N (0 + lens.sum), ?_, ?_⟩
    · rw [hfil]
      rw [show sendProgressUpdate cid cty "in_progress" 5 N 0 ::
        chunkLoopEvents cid cty N K lens 0 0 =
        [sendProgressUpdate cid cty "in_progress" 5 N 0] ++
        chunkLoopEvents cid cty N K lens 0 0 from rfl]
      rw [List.getLast?_append_of_ne_nil _ hclne]
      exact chunkLoopEvents_getLast cid cty N K lens 0 0 hlne
    · simp [sendProgressUpdate, hsum]

/-- C3 as stated is false on the code: for `set_multiple_text_contents`
over one item (`ceil(1/5) = 1` chunk) the run emits three `in_progress`
events (the planning event plus one before and one after the single chunk
group), not one. -/
theorem c3_counterexample :
    ((progressOf (setMultipleTextContents sampleEnv (some "n")
        (some [sampleReplacement]) "cmd").1).filter
      (fun u => u.status == "in_progress")).length = 3 ∧
    divCeil 1 5 = 1 ∧
    ((progressOf (setMultipleTextContents sampleEnv (some "n")
        (some [sampleReplacement]) "cmd").1).filter
      (fun u => u.status == "in_progress")).length ≠ divCeil 1 5 := by
  refine ⟨by decide, by decide, by decide⟩

/-- C3 amended: a chunked run over `N ≥ 1` items with chunk size `C`
(scan with chunking, or `set_multiple_text_contents` with its fixed chunk
size 5) emits `2 * ceil(N/C) + 1` Progress Events with status
`in_progress` — one planning event plus one before- and one after-event
per chunk group — and the last of them reports `processedItems = N`. -/
theorem c3_in_progress_count_amended (root : FNode) (C : Nat) (cid : String)
    (env : TextEnv) (nodeId : String) (text : List Replacement) (cid2 : String)
    (hC : 0 < C) (hn : nodeId ≠ "") :
    InProgressCountSpec (scanTextNodes (some root) true C cid).1
      (collectNodesToProcess root [] 0).length
      (divCeil (collectNodesToProcess root [] 0).length C) ∧
    InProgressCountSpec (setMultipleTextContents env (some nodeId) (some text) cid2).1
      text.length (divCeil text.length 5) := by
  constructor
  · rw [scanTextNodes_some_chunked]
    exact inProgressSpec_of_events _ cid "scan_text_nodes" _ _ 0 _
      (scanTextNodesChunked_events cid root C hC)
      (by rw [List.length_map, buildChunks_length C hC])
      (buildChunks_sum_lengths C hC _)
  · exact inProgressSpec_of_events _ cid2 "set_multiple_text_contents" _ _
      text.length _
      (setMultipleTextContents_events env nodeId text cid2 hn)
      (by rw [List.length_map, buildChunks_length 5 (by omega) text])
      (buildChunks_sum_lengths 5 (by omega) text)

/-- Witness for the amended C3 at concrete inputs. -/
theorem c3_in_progress_count_amended_witness :
    (0 < 2 ∧ ("n" : String) ≠ "") ∧
    (InProgressCountSpec (scanTextNodes (some sampleTree) true 2 "c").1
      (collectNodesToProcess sampleTree [] 0).length
      (divCeil (collectNodesToProcess sampleTree [] 0).length 2) ∧
     InProgressCountSpec
       (setMultipleTextContents sampleEnv (some "n") (some [sampleReplacement]) "d").1
       ([sampleReplacement].length) (divCeil [sampleReplacement].length 5)) :=
  ⟨⟨by decide, by decide⟩,
   c3_in_progress_count_amended sampleTree 2 "c" sampleEnv "n" [sampleReplacement] "d"
     (by decide) (by decide)⟩

/-- C4: when exactly one of the `N` replacement entries fails (missing
fields, node not found, non-text node, or a caught per-item exception),
the remaining `N - 1` entries are still attempted — the aggregate has one
result per input entry, in order — with exactly one structured failure
entry carrying an error message, and `N - 1` success entries. -/
theorem c4_one_failure_isolated (env : TextEnv) (nodeId : String)
    (text : List Replacement) (cid : String) (hn : nodeId ≠ "")
    (hone : (text.map (applyReplacement env)).countP (fun x => !x.success) = 1) :
    ∃ res, (setMultipleTextContents env (some nodeId) (some text) cid).2 =
        Except.ok res ∧
      res.results = text.map (applyReplacement env) ∧
      res.results.length = text.length ∧
      res.results.countP (fun x => !x.success) = 1 ∧
      res.results.countP (·.success) = text.length - 1 ∧
      ∀ r ∈ res.results, r.success = false → r.error.isSome = true := by
  refine ⟨_, setMultipleTextContents_result env nodeId text cid hn, rfl, ?_, hone, ?_, ?_⟩
  · exact List.length_map _ _
  · dsimp only
    have hadd := countP_success_add (text.map (applyReplacement env))
    rw [List.length_map] at hadd
    omega
  · intro r hr hf
    obtain ⟨x, _, rfl⟩ := List.mem_map.mp hr
    exact applyReplacement_failure_error env x hf

/-- Witness for C4: two entries of which exactly the second (unknown node
id) fails. -/
theorem c4_one_failure_isolated_witness :
    (("n" : String) ≠ "" ∧
     (([sampleReplacement, sampleBadReplacement].map
        (applyReplacement sampleEnv)).countP (fun x => !x.success) = 1)) ∧
    ∃ res, (setMultipleTextContents sampleEnv (some "n")
        (some [sampleReplacement, sampleBadReplacement]) "c").2 = Except.ok res ∧
      res.results = [sampleReplacement, sampleBadReplacement].map
        (applyReplacement sampleEnv) ∧
      res.results.length = [sampleReplacement, sampleBadReplacement].length ∧
      res.results.countP (fun x => !x.success) = 1 ∧
      res.results.countP (·.success) = [sampleReplacement, sampleBadReplacement].length - 1 ∧
      ∀ r ∈ res.results, r.success = false → r.error.isSome = true :=
  ⟨⟨by decide, by decide⟩,
   c4_one_failure_isolated sampleEnv "n" [sampleReplacement, sampleBadReplacement] "c"
     (by decide) (by decide)⟩

/-- C5 as stated is false on the code: for an empty `text` array the
`started` event is not immediately followed by `completed` — the
unconditional planning `in_progress` event (progress 5, "0 chunks") sits
between them. -/
theorem c5_counterexample :
    (progressOf (setMultipleTextContents sampleEnv (some "n") (some []) "cmd").1).map
      (·.status) = ["started", "in_progress", "completed"] ∧
    (progressOf (setMultipleTextContents sampleEnv (some "n") (some []) "cmd").1).map
      (·.status) ≠ ["started", "completed"] := by
  refine ⟨by decide, by decide⟩

/-- C5 amended: for `text = []` the run emits `started`, then a single
planning `in_progress` event at progress 5, then `completed` with zero
processed items, and returns normally (no error is raised; the aggregate
reports zero replacements). -/
theorem c5_empty_list_events (env : TextEnv) (nodeId cid : String) (hn : nodeId ≠ "") :
    progressOf (setMultipleTextContents env (some nodeId) (some []) cid).1 =
      [sendProgressUpdate cid "set_multiple_text_contents" "started" 0 0 0,
       sendProgressUpdate cid "set_multiple_text_contents" "in_progress" 5 0 0,
       sendProgressUpdate cid "set_multiple_text_contents" "completed" 100 0 0] ∧
    ∃ res, (setMultipleTextContents env (some nodeId) (some []) cid).2 = Except.ok res ∧
      res.success = false ∧ res.replacementsApplied = 0 ∧
      res.replacementsFailed = 0 ∧ res.totalReplacements = 0 := by
  constructor
  · have hev := setMultipleTextContents_events env nodeId [] cid hn
    simpa [chunkLoopEvents, buildChunks, divCeil] using hev
  · exact ⟨_, setMultipleTextContents_result env nodeId [] cid hn, rfl, rfl, rfl, rfl⟩

/-- Witness for the amended C5 at a concrete input. -/
theorem c5_empty_list_events_witness :
    ("n" : String) ≠ "" ∧
    (progressOf (setMultipleTextContents sampleEnv (some "n") (some []) "d").1 =
      [sendProgressUpdate "d" "set_multiple_text_contents" "started" 0 0 0,
       sendProgressUpdate "d" "set_multiple_text_contents" "in_progress" 5 0 0,
       sendProgressUpdate "d" "set_multiple_text_contents" "completed" 100 0 0] ∧
     ∃ res, (setMultipleTextContents sampleEnv (some "n") (some []) "d").2 =
        Except.ok res ∧
      res.success = false ∧ res.replacementsApplied = 0 ∧
      res.replacementsFailed = 0 ∧ res.totalReplacements = 0) :=
  ⟨by decide, c5_empty_list_events sampleEnv "n" "d" (by decide)⟩

/-- Inter-chunk delay discipline of one chunked run over `N` items in `K`
chunk groups: exactly `max(K - 1, 0)` delays of the inter-chunk duration
(`K - 1` in truncated natural subtraction), and for `N ≥ 1` the trace ends
with the final group's after-event immediately followed by the terminal
`completed` event, so no inter-chunk delay follows the final group. -/
def InterChunkDelaySpec (trace : List Ev) (delayMs N K : Nat)
    (cid cty : String) : Prop :=
  countDelay trace delayMs = K - 1 ∧
  (0 < N → ∃ pre u, trace = pre ++ [Ev.progress u,
      Ev.progress (sendProgressUpdate cid cty "completed" 100 N N)] ∧
    u.status = "in_progress")

/-- C7: in every chunked run (scan with chunking, or
`set_multiple_text_contents`) the cooperative inter-chunk yield — the
fixed-duration delay awaited between consecutive chunk groups
(`delay(50)` in the scan, `delay(1000)` in the text replacement) — is
performed exactly `max(ceil(N/C) - 1, 0)` times, and never after the
final group. -/
theorem c7_inter_chunk_delays (root : FNode) (C : Nat) (cid : String)
    (env : TextEnv) (nodeId : String) (text : List Replacement) (cid2 : String)
    (hC : 0 < C) (hn : nodeId ≠ "") :
    InterChunkDelaySpec (scanTextNodes (some root) true C cid).1 50
      (collectNodesToProcess root [] 0).length
      (divCeil (collectNodesToProcess root [] 0).length C) cid "scan_text_nodes" ∧
    InterChunkDelaySpec (setMultipleTextContents env (some nodeId) (some text) cid2).1
      1000 text.length (divCeil text.length 5) cid2 "set_multiple_text_contents" := by
  constructor
  · rw [scanTextNodes_some_chunked]
    exact ⟨scanTextNodesChunked_countDelay50 cid root C hC,
      fun hN => scanTextNodesChunked_lastEvents cid root C hC hN⟩
  · exact ⟨setMultipleTextContents_countDelay1000 env nodeId text cid2 hn,
      fun hN => setMultipleTextContents_lastEvents env nodeId text cid2 hn hN⟩

/-- Witness for C7 at concrete inputs. -/
theorem c7_inter_chunk_delays_witness :
    (0 < 2 ∧ ("n" : String) ≠ "") ∧
    (InterChunkDelaySpec (scanTextNodes (some sampleTree) true 2 "c").1 50
      (collectNodesToProcess sampleTree [] 0).length
      (divCeil (collectNodesToProcess sampleTree [] 0).length 2) "c" "scan_text_nodes" ∧
     InterChunkDelaySpec
       (setMultipleTextContents sampleEnv (some "n") (some [sampleReplacement]) "d").1
       1000 [sampleReplacement].length (divCeil [sampleReplacement].length 5) "d"
       "set_multiple_text_contents") :=
  ⟨⟨by decide, by decide⟩,
   c7_inter_chunk_delays sampleTree 2 "c" sampleEnv "n" [sampleReplacement] "d"
     (by decide) (by decide)⟩

/-- Progress and status of the chunk-loop event at position `i`, pinned to
the exact loop counters: positions alternate before and after events (the
event at index `2*m` is emitted before group `m` with `m` groups fully
processed, the event at index `2*m + 1` after it with `m + 1`), so the
number of fully processed groups when the event at index `i` is emitted is
`(i + 1) / 2`, and that is the argument of its progress formula. -/
theorem chunkLoopEvents_get (cid cty : String) (N K : Nat) (lens : List Nat) :
    ∀ (j pr i : Nat) (h : i < (chunkLoopEvents cid cty N K lens j pr).length),
      ((chunkLoopEvents cid cty N K lens j pr).get ⟨i, h⟩).status = "in_progress" ∧
      ((chunkLoopEvents cid cty N K lens j pr).get ⟨i, h⟩).progress =
        chunkProgress K (j + (i + 1) / 2) := by
  induction lens with
  | nil =>
    intro j pr i h
    simp [chunkLoopEvents] at h
  | cons len rest ih =>
    intro j pr i h
    rcases i with _ | (_ | m)
    · refine ⟨rfl, ?_⟩
      have e : j + (0 + 1) / 2 = j := by omega
      rw [e]
      rfl
    · refine ⟨rfl, ?_⟩
      have e : j + (0 + 1 + 1) / 2 = j + 1 := by omega
      rw [e]
      rfl
    · have hlen : m < (chunkLoopEvents cid cty N K rest (j + 1) (pr + len)).length := by
        have h2 := h
        simp only [chunkLoopEvents, List.length_cons] at h2
        omega
      obtain ⟨h1, h2⟩ := ih (j + 1) (pr + len) m hlen
      refine ⟨h1, ?_⟩
      have e : j + (m + 1 + 1 + 1) / 2 = j + 1 + (m + 1) / 2 := by omega
      rw [e]
      exact h2

/-- Shape of one chunked run's progress events: `started`, then the
planning event at exactly 5, then the `2 * K` chunk-phase events, then
`completed`.  The chunk-phase events alternate a before- and an
after-event per chunk group, so the event at index `i` is emitted with
exactly `(i + 1) / 2` fully processed chunk groups, and its progress is
pinned to `round(5 + (chunksDone / totalChunks) * 90)` at precisely that
`chunksDone` — hence always within `[5, 95]`. -/
def ChunkPhaseSpec (trace : List Ev) (cid cty : String) (N K startedTotal : Nat) : Prop :=
  ∃ loopEvs,
    progressOf trace =
      sendProgressUpdate cid cty "started" 0 startedTotal 0 ::
      sendProgressUpdate cid cty "in_progress" 5 N 0 ::
      loopEvs ++ [sendProgressUpdate cid cty "completed" 100 N N] ∧
    loopEvs.length = 2 * K ∧
    ∀ (i : Nat) (h : i < loopEvs.length),
      (loopEvs.get ⟨i, h⟩).status = "in_progress" ∧
      (loopEvs.get ⟨i, h⟩).progress = chunkProgress K ((i + 1) / 2) ∧
      5 ≤ (loopEvs.get ⟨i, h⟩).progress ∧ (loopEvs.get ⟨i, h⟩).progress ≤ 95

theorem chunkPhaseSpec_of_events (trace : List Ev) (cid cty : String)
    (N K t0 : Nat) (lens : List Nat)
    (hev : progressOf trace =
      sendProgressUpdate cid cty "started" 0 t0 0 ::
      sendProgressUpdate cid cty "in_progress" 5 N 0 ::
      chunkLoopEvents cid cty N K lens 0 0 ++
      [sendProgressUpdate cid cty "completed" 100 N N])
    (hlenK : lens.length = K) :
    ChunkPhaseSpec trace cid cty N K t0 := by
  refine ⟨chunkLoopEvents cid cty N K lens 0 0, hev, ?_, ?_⟩
  · rw [chunkLoopEvents_length, hlenK]
  · intro i h
    obtain ⟨h1, h2⟩ := chunkLoopEvents_get cid cty N K lens 0 0 i h
    rw [Nat.zero_add] at h2
    have hl := h
    rw [chunkLoopEvents_length] at hl
    have hKpos : 0 < K := by omega
    have hjK : (i + 1) / 2 ≤ K := by omega
    refine ⟨h1, h2, ?_, ?_⟩
    · rw [h2]
      exact chunkProgress_ge_5 K _ hKpos
    · rw [h2]
      exact chunkProgress_le_95 K _ hKpos hjK

/-- C8: every chunk-phase `in_progress` event of either chunked handler
reports `progress = round(5 + (chunksDone/totalChunks) * 90)` where
`chunksDone` is the number of fully processed chunk groups at the moment
the event is emitted (`(i + 1) / 2` for the event at chunk-phase index
`i`, the before and after events of group `m` sitting at indices `2*m` and
`2*m + 1`) — hence a value in `[5, 95]` — and the planning-phase event
reserves the leading slice by reporting progress exactly 5. -/
theorem c8_chunk_phase_progress (root : FNode) (C : Nat) (cid : String)
    (env : TextEnv) (nodeId : String) (text : List Replacement) (cid2 : String)
    (hC : 0 < C) (hn : nodeId ≠ "") :
    ChunkPhaseSpec (scanTextNodes (some root) true C cid).1 cid "scan_text_nodes"
      (collectNodesToProcess root [] 0).length
      (divCeil (collectNodesToProcess root [] 0).length C) 0 ∧
    ChunkPhaseSpec (setMultipleTextContents env (some nodeId) (some text) cid2).1
      cid2 "set_multiple_text_contents" text.length (divCeil text.length 5)
      text.length := by
  constructor
  · rw [scanTextNodes_some_chunked]
    exact chunkPhaseSpec_of_events _ cid "scan_text_nodes" _ _ 0 _
      (scanTextNodesChunked_events cid root C hC)
      (by rw [List.length_map, buildChunks_length C hC])
  · exact chunkPhaseSpec_of_events _ cid2 "set_multiple_text_contents" _ _
      text.length _
      (setMultipleTextContents_events env nodeId text cid2 hn)
      (by rw [List.length_map, buildChunks_length 5 (by omega) text])

/-- Witness for C8 at concrete inputs. -/
theorem c8_chunk_phase_progress_witness :
    (0 < 2 ∧ ("n" : String) ≠ "") ∧
    (ChunkPhaseSpec (scanTextNodes (some sampleTree) true 2 "c").1 "c" "scan_text_nodes"
      (collectNodesToProcess sampleTree [] 0).length
      (divCeil (collectNodesToProcess sampleTree [] 0).length 2) 0 ∧
     ChunkPhaseSpec
       (setMultipleTextContents sampleEnv (some "n") (some [sampleReplacement]) "d").1
       "d" "set_multiple_text_contents" [sampleReplacement].length
       (divCeil [sampleReplacement].length 5) [sampleReplacement].length) :=
  ⟨⟨by decide, by decide⟩,
   c8_chunk_phase_progress sampleTree 2 "c" sampleEnv "n" [sampleReplacement] "d"
     (by decide) (by decide)⟩

/-- Value of a `nodesToProcess` entry under `processTextNode`, as a
function of its observable key only. -/
def processKey (k : NodeKey) : Option SafeTextNode :=
  if k.ty = "TEXT" then
    some { id := k.id, name := jsNameOr k.name "Text", ty := k.ty,
           characters := k.characters,
           path := String.intercalate " > " k.parentPath, depth := k.depth }
  else none

theorem processKey_eq (ni : NodeToProcess) :
    (if ni.node.ty = "TEXT" then processTextNode ni.node ni.parentPath ni.depth
     else none) = processKey ni.key := by
  by_cases h : ni.node.ty = "TEXT" <;>
    simp [h, processKey, processTextNode, NodeToProcess.key]

/-- C9: both scan traversals exclude every node whose `visible` is `false`
together with its entire subtree — the non-chunked traversal returns
exactly the text nodes of the pruned tree, the chunked collection phase
yields entry-for-entry the collection over the pruned tree (hence equal
`totalItems`/`processedItems` counts), every collected entry is visible,
and the chunked scan's returned `textNodes` are computed from the pruned
collection alone. -/
theorem c9_invisible_pruned (root : FNode) (p : List String) (d : Nat)
    (cid : String) (C : Nat) (hC : 0 < C) :
    findTextNodes root p d = findTextNodesO (pruneInvisible root) p d ∧
    (collectNodesToProcess root p d).map NodeToProcess.key =
      (collectO (pruneInvisible root) p d).map NodeToProcess.key ∧
    (collectNodesToProcess root p d).length =
      (collectO (pruneInvisible root) p d).length ∧
    (∀ i ∈ collectNodesToProcess root p d, i.node.visible = true) ∧
    (scanTextNodesChunked cid root C).2.textNodes =
      (collectO (pruneInvisible root) [] 0).filterMap fun ni =>
        if ni.node.ty = "TEXT" then processTextNode ni.node ni.parentPath ni.depth
        else none := by
  have hfun : (fun ni : NodeToProcess =>
      if ni.node.ty = "TEXT" then processTextNode ni.node ni.parentPath ni.depth
      else none) = fun ni => processKey ni.key := funext processKey_eq
  refine ⟨findTextNodes_prune root p d, collect_key_prune root p d, ?_,
    collect_visible root p d, ?_⟩
  · have := congrArg List.length (collect_key_prune root p d)
    rwa [List.length_map, List.length_map] at this
  · rw [scanTextNodesChunked_textNodes cid root C hC, hfun]
    rw [show (collectNodesToProcess root [] 0).filterMap
        (fun ni => processKey ni.key) =
      ((collectNodesToProcess root [] 0).map NodeToProcess.key).filterMap processKey
      from by rw [List.filterMap_map]; rfl]
    rw [collect_key_prune root [] 0]
    rw [show ((collectO (pruneInvisible root) [] 0).map NodeToProcess.key).filterMap
        processKey =
      (collectO (pruneInvisible root) [] 0).filterMap (fun ni => processKey ni.key)
      from by rw [List.filterMap_map]; rfl]

/-- Witness for C9 at a concrete tree containing an invisible subtree. -/
theorem c9_invisible_pruned_witness :
    0 < 2 ∧
    (findTextNodes sampleTree [] 0 = findTextNodesO (pruneInvisible sampleTree) [] 0 ∧
     (collectNodesToProcess sampleTree [] 0).map NodeToProcess.key =
       (collectO (pruneInvisible sampleTree) [] 0).map NodeToProcess.key ∧
     (collectNodesToProcess sampleTree [] 0).length =
       (collectO (pruneInvisible sampleTree) [] 0).length ∧
     (∀ i ∈ collectNodesToProcess sampleTree [] 0, i.node.visible = true) ∧
     (scanTextNodesChunked "c" sampleTree 2).2.textNodes =
       (collectO (pruneInvisible sampleTree) [] 0).filterMap fun ni =>
         if ni.node.ty = "TEXT" then processTextNode ni.node ni.parentPath ni.depth
         else none) :=
  ⟨by decide, c9_invisible_pruned sampleTree [] 0 "c" 2 (by decide)⟩

/-- C10: the aggregate of `set_multiple_text_contents` always satisfies
`replacementsApplied + replacementsFailed = totalReplacements = N` (the
input length), and its `success` flag is true exactly when at least one
replacement succeeded; an all-failing call and an empty call both return
`success := false` normally instead of throwing. -/
theorem c10_aggregate_invariants (env : TextEnv) (nodeId : String)
    (text : List Replacement) (cid : String) (hn : nodeId ≠ "") :
    ∃ res, (setMultipleTextContents env (some nodeId) (some text) cid).2 =
        Except.ok res ∧
      res.replacementsApplied + res.replacementsFailed = res.totalReplacements ∧
      res.totalReplacements = text.length ∧
      (res.success = true ↔ ∃ r ∈ text, (applyReplacement env r).success = true) ∧
      ((∀ r ∈ text, (applyReplacement env r).success = false) → res.success = false) ∧
      (text = [] → res.success = false) := by
  refine ⟨_, setMultipleTextContents_result env nodeId text cid hn, ?_, rfl, ?_, ?_, ?_⟩
  · dsimp only
    have hadd := countP_success_add (text.map (applyReplacement env))
    rw [List.length_map] at hadd
    exact hadd
  · dsimp only
    simp only [decide_eq_true_eq]
    rw [List.countP_pos_iff]
    constructor
    · rintro ⟨x, hx, hpx⟩
      obtain ⟨r, hr, rfl⟩ := List.mem_map.mp hx
      exact ⟨r, hr, hpx⟩
    · rintro ⟨r, hr, hpr⟩
      exact ⟨_, List.mem_map_of_mem _ hr, hpr⟩
  · intro hall
    dsimp only
    have hz : (text.map (applyReplacement env)).countP (·.success) = 0 := by
      rw [List.countP_eq_zero]
      intro x hx
      obtain ⟨r, hr, rfl⟩ := List.mem_map.mp hx
      simp [hall r hr]
    rw [hz]
    rfl
  · rintro rfl
    rfl

/-- Witness for C10 at a concrete input. -/
theorem c10_aggregate_invariants_witness :
    ("n" : String) ≠ "" ∧
    ∃ res, (setMultipleTextContents sampleEnv (some "n")
        (some [sampleReplacement, sampleBadReplacement]) "c").2 = Except.ok res ∧
      res.replacementsApplied + res.replacementsFailed = res.totalReplacements ∧
      res.totalReplacements = [sampleReplacement, sampleBadReplacement].length ∧
      (res.success = true ↔ ∃ r ∈ [sampleReplacement, sampleBadReplacement],
        (applyReplacement sampleEnv r).success = true) ∧
      ((∀ r ∈ [sampleReplacement, sampleBadReplacement],
        (applyReplacement sampleEnv r).success = false) → res.success = false) ∧
      ([sampleReplacement, sampleBadReplacement] = ([] : List Replacement) →
        res.success = false) :=
  ⟨by decide,
   c10_aggregate_invariants sampleEnv "n" [sampleReplacement, sampleBadReplacement] "c"
     (by decide)⟩

end Figma
